import Mathlib

/-! MPTCP Linked-Increase congestion control (net/mptcp/mptcp_coupled.c)

Shallow embedding of the coupled congestion-control module and the properties
of its coefficient computation (`mptcp_ccc_recalc_alpha`) and of its
per-acknowledgment window update (`mptcp_ccc_cong_avoid`).

Machine integers are natural numbers; every place where the C arithmetic can
wrap carries an explicit `% 2 ^ 32` or `% 2 ^ 64`.  A division whose divisor can
be zero at run time yields `none` (the division faults); every function that
contains such a division returns an `Option`.
-/

namespace MptcpCoupled

/-! ## Data model -/

/-- Fields of `struct tcp_sock` read or written by the module, for one subflow.
The two booleans stand for the host predicates `mptcp_sk_can_send(sk)` and
`tcp_is_cwnd_limited(sk)` evaluated on this subflow. -/
structure tcp_sock where
  snd_cwnd : Nat
  snd_ssthresh : Nat
  snd_cwnd_cnt : Nat
  snd_cwnd_clamp : Nat
  srtt_us : Nat
  mptcp_sk_can_send : Bool
  tcp_is_cwnd_limited : Bool
  deriving DecidableEq

/-- Private congestion-control data kept on the meta socket
(`struct mptcp_ccc`). -/
structure mptcp_ccc where
  alpha : Nat
  forced_update : Bool
  deriving DecidableEq

/-- The part of `struct mptcp_cb` the module looks at: the count of established
subflows and the connection list, split around the subflow the hook runs on.
`mptcp_for_each_sk` visits `pre`, then the current subflow, then `post`. -/
structure mptcp_cb where
  cnt_established : Nat
  pre : List tcp_sock
  post : List tcp_sock
  deriving DecidableEq

/-- Everything reachable from the subflow socket `sk` a hook is called with:
`tp` is `tcp_sk(sk)`, `mpc` is `mptcp(tcp_sk(sk))`, `mpcb` is
`tcp_sk(sk)->mpcb` (`none` for a null pointer) and `meta_ca` is
`inet_csk_ca(mptcp_meta_sk(sk))`.  `recalc_calls` is a ghost counter of the
entries into `mptcp_ccc_recalc_alpha`; no kernel field corresponds to it and no
function reads it. -/
structure sock where
  tp : tcp_sock
  mpc : Bool
  mpcb : Option mptcp_cb
  meta_ca : mptcp_ccc
  recalc_calls : Nat
  deriving DecidableEq

/-- The state with the ghost counter erased. -/
def sock.real (sk : sock) : sock := { sk with recalc_calls := 0 }

/-- The connection list in the order `mptcp_for_each_sk` walks it. -/
def mptcp_for_each_sk (mpcb : mptcp_cb) (tp : tcp_sock) : List tcp_sock :=
  mpcb.pre ++ tp :: mpcb.post

/-- All `u32` fields of a subflow are in range. -/
def tcp_sock.wf (tp : tcp_sock) : Prop :=
  tp.snd_cwnd < 2 ^ 32 ∧ tp.snd_ssthresh < 2 ^ 32 ∧ tp.snd_cwnd_cnt < 2 ^ 32 ∧
    tp.snd_cwnd_clamp < 2 ^ 32 ∧ tp.srtt_us < 2 ^ 32

instance (tp : tcp_sock) : Decidable tp.wf := by
  unfold tcp_sock.wf; infer_instance

/-! ## Scaling constants and accessors -/

def alpha_scale_den : Nat := 10
def alpha_scale_num : Nat := 32
def alpha_scale : Nat := 12

/-- The function `mptcp_ccc_sk_can_send`:
`mptcp_sk_can_send(sk) && tcp_sk(sk)->srtt_us`. -/
def mptcp_ccc_sk_can_send (tp : tcp_sock) : Bool :=
  tp.mptcp_sk_can_send && (tp.srtt_us != 0)

def mptcp_get_alpha (sk : sock) : Nat := sk.meta_ca.alpha

def mptcp_set_alpha (sk : sock) (alpha : Nat) : sock :=
  { sk with meta_ca := { sk.meta_ca with alpha := alpha } }

/-- The function `mptcp_ccc_scale`: `(u64) val << scale` for a `u32` argument
`val`. -/
def mptcp_ccc_scale (val : Nat) (scale : Nat) : Nat :=
  (val % 2 ^ 32) * 2 ^ scale % 2 ^ 64

def mptcp_get_forced (sk : sock) : Bool := sk.meta_ca.forced_update

def mptcp_set_forced (sk : sock) (force : Bool) : sock :=
  { sk with meta_ca := { sk.meta_ca with forced_update := force } }

/-- Unsigned 64-by-64 division; a zero divisor faults. -/
def div64_u64 (dividend divisor : Nat) : Option Nat :=
  if divisor = 0 then none else some (dividend / divisor)

/-- Unsigned 64-by-32 division: the divisor parameter is a `u32`, so a wider
argument is cut to its low 32 bits; a zero divisor faults. -/
def div_u64 (dividend divisor : Nat) : Option Nat :=
  if divisor % 2 ^ 32 = 0 then none else some (dividend / (divisor % 2 ^ 32))

/-- Value of an `int` holding the 32-bit pattern `x` once converted to `u64`
(sign extension). -/
def int_to_u64 (x : Nat) : Nat :=
  if x % 2 ^ 32 < 2 ^ 31 then x % 2 ^ 32 else x % 2 ^ 32 + (2 ^ 64 - 2 ^ 32)

/-! ## `mptcp_ccc_recalc_alpha` -/

/-- Locals of the first loop of `mptcp_ccc_recalc_alpha`.  The two `int`
locals hold the 32-bit pattern of the `u32` value assigned to them. -/
structure alpha_scan where
  max_numerator : Nat
  best_cwnd : Nat
  best_rtt : Nat
  can_send : Nat
  deriving DecidableEq

/-- Initial values of the locals (`best_cwnd = 0, best_rtt = 0, can_send = 0,
max_numerator = 0`). -/
def alpha_scan.init : alpha_scan :=
  { max_numerator := 0, best_cwnd := 0, best_rtt := 0, can_send := 0 }

/-- The candidate `tmp` of one send-eligible subflow:
`div64_u64(mptcp_ccc_scale(snd_cwnd, alpha_scale_num), (u64)srtt_us * srtt_us)`.
The divisor is the square of a non-zero `u32`, hence non-zero and below
`2 ^ 64`. -/
def numerator_candidate (sub_tp : tcp_sock) : Nat :=
  mptcp_ccc_scale sub_tp.snd_cwnd alpha_scale_num / (sub_tp.srtt_us * sub_tp.srtt_us)

/-- First loop (lines 99-120): count the send-eligible subflows and keep the
one with the largest candidate; the comparison is `>=`. -/
def find_max_numerator : List tcp_sock → alpha_scan → alpha_scan
  | [], acc => acc
  | sub_tp :: rest, acc =>
    if !mptcp_ccc_sk_can_send sub_tp then find_max_numerator rest acc
    else
      let tmp := numerator_candidate sub_tp
      if tmp ≥ acc.max_numerator then
        find_max_numerator rest
          { max_numerator := tmp, best_cwnd := sub_tp.snd_cwnd,
            best_rtt := sub_tp.srtt_us, can_send := acc.can_send + 1 }
      else
        find_max_numerator rest { acc with can_send := acc.can_send + 1 }

/-- One summand of the second loop:
`div_u64(mptcp_ccc_scale(snd_cwnd, alpha_scale_den) * best_rtt, srtt_us)`.
The product is taken in `u64` after converting the `int` `best_rtt`; the
divisor is a non-zero `u32`. -/
def denominator_term (best_rtt : Nat) (sub_tp : tcp_sock) : Nat :=
  (mptcp_ccc_scale sub_tp.snd_cwnd alpha_scale_den * int_to_u64 best_rtt % 2 ^ 64)
    / sub_tp.srtt_us

/-- Second loop (lines 127-137): `sum_denominator += ...` in `u64`. -/
def calc_sum_denominator (best_rtt : Nat) : List tcp_sock → Nat → Nat
  | [], sum => sum
  | sub_tp :: rest, sum =>
    if !mptcp_ccc_sk_can_send sub_tp then calc_sum_denominator best_rtt rest sum
    else
      calc_sum_denominator best_rtt rest ((sum + denominator_term best_rtt sub_tp) % 2 ^ 64)

/-- The squared denominator of line 138, `sum_denominator *= sum_denominator`,
for the subflow list `subs`. -/
def squared_denominator (subs : List tcp_sock) : Nat :=
  let scan := find_max_numerator subs alpha_scan.init
  let sum_denominator := calc_sum_denominator scan.best_rtt subs 0
  sum_denominator * sum_denominator % 2 ^ 64

/-- The function `mptcp_ccc_recalc_alpha`.  The diagnostic output of lines
139-149 changes no state and is omitted; the division of line 151 faults on a
zero divisor. -/
def mptcp_ccc_recalc_alpha (sk0 : sock) : Option sock :=
  let sk := { sk0 with recalc_calls := sk0.recalc_calls + 1 }
  match sk.mpcb with
  | none => some sk
  | some mpcb =>
    if mpcb.cnt_established ≤ 1 then some (mptcp_set_alpha sk 1)
    else
      let subs := mptcp_for_each_sk mpcb sk.tp
      let scan := find_max_numerator subs alpha_scan.init
      if scan.can_send = 0 then some (mptcp_set_alpha sk 1)
      else
        let sum_denominator := calc_sum_denominator scan.best_rtt subs 0
        let sum_denominator := sum_denominator * sum_denominator % 2 ^ 64
        match div64_u64 (mptcp_ccc_scale scan.best_cwnd alpha_scale_num) sum_denominator with
        | none => none
        | some alpha => some (mptcp_set_alpha sk (if alpha = 0 then 1 else alpha))

/-! ## Hooks -/

/-- Modelled from the spec: `tcp_slow_start` belongs to the host stack and is
not part of the source file.  The spec describes it as the standard slow start,
which grows `cwnd` by the number of packets acknowledged; the host's step stops
the growth one past `ssthresh` and caps the window at `cwnd_clamp`. -/
def tcp_slow_start (tp : tcp_sock) (acked : Nat) : tcp_sock :=
  let cwnd := (tp.snd_cwnd + acked) % 2 ^ 32
  let cwnd := if cwnd > tp.snd_ssthresh then (tp.snd_ssthresh + 1) % 2 ^ 32 else cwnd
  { tp with snd_cwnd := min cwnd tp.snd_cwnd_clamp }

/-- Modelled from the spec: `tcp_reno_cong_avoid` belongs to the host stack and
is not part of the source file.  The spec describes it as the standard
single-path slow-start / additive-increase behaviour: nothing unless window
limited, slow start while `cwnd <= ssthresh`, otherwise one more packet per
`cwnd` acknowledgments, never beyond `cwnd_clamp`. -/
def tcp_reno_cong_avoid (tp : tcp_sock) (acked : Nat) : tcp_sock :=
  if !tp.tcp_is_cwnd_limited then tp
  else if tp.snd_cwnd ≤ tp.snd_ssthresh then tcp_slow_start tp acked
  else if tp.snd_cwnd_cnt ≥ tp.snd_cwnd then
    { tp with
      snd_cwnd := if tp.snd_cwnd < tp.snd_cwnd_clamp then (tp.snd_cwnd + 1) % 2 ^ 32
                  else tp.snd_cwnd,
      snd_cwnd_cnt := 0 }
  else { tp with snd_cwnd_cnt := (tp.snd_cwnd_cnt + 1) % 2 ^ 32 }

/-- The function `mptcp_ccc_init`. -/
def mptcp_ccc_init (sk : sock) : sock :=
  if sk.mpc then mptcp_set_alpha (mptcp_set_forced sk false) 1 else sk

/-- Lines 219-222 of `mptcp_ccc_cong_avoid`: a pending forced update runs the
recomputation and clears the flag. -/
def cong_avoid_forced (sk : sock) : Option sock :=
  if mptcp_get_forced sk then
    match mptcp_ccc_recalc_alpha sk with
    | none => none
    | some sk1 => some (mptcp_set_forced sk1 false)
  else some sk

/-- Lines 224-244 of `mptcp_ccc_cong_avoid`: the local `snd_cwnd`, the number
of acknowledgments the counter has to reach.  `mpcb->cnt_established` is read
through the control-block pointer; `alpha` is passed to the 32-bit divisor of
`div_u64`. -/
def snd_cwnd_target (sk : sock) : Option Nat :=
  match sk.mpcb with
  | none => none
  | some mpcb =>
    if mpcb.cnt_established > 1 then
      let alpha := mptcp_get_alpha sk
      let alpha := if alpha = 0 then 1 else alpha
      match div_u64 (mptcp_ccc_scale 1 alpha_scale) alpha with
      | none => none
      | some q =>
        let snd_cwnd := q % 2 ^ 32
        some (if snd_cwnd < sk.tp.snd_cwnd then sk.tp.snd_cwnd else snd_cwnd)
    else some sk.tp.snd_cwnd

/-- Lines 247-256 of `mptcp_ccc_cong_avoid`: compare the counter with the
target, then either grow the window (recomputing alpha after the increment)
and reset the counter, or count one more acknowledgment. -/
def cong_avoid_ai (sk : sock) (snd_cwnd : Nat) : Option sock :=
  if sk.tp.snd_cwnd_cnt ≥ snd_cwnd then
    if sk.tp.snd_cwnd < sk.tp.snd_cwnd_clamp then
      match mptcp_ccc_recalc_alpha
          { sk with tp := { sk.tp with snd_cwnd := (sk.tp.snd_cwnd + 1) % 2 ^ 32 } } with
      | none => none
      | some sk1 => some { sk1 with tp := { sk1.tp with snd_cwnd_cnt := 0 } }
    else some { sk with tp := { sk.tp with snd_cwnd_cnt := 0 } }
  else some { sk with tp := { sk.tp with snd_cwnd_cnt := (sk.tp.snd_cwnd_cnt + 1) % 2 ^ 32 } }

/-- The function `mptcp_ccc_cong_avoid`; the body does not use its `ack`
argument. -/
def mptcp_ccc_cong_avoid (sk : sock) (_ack acked : Nat) : Option sock :=
  if !sk.mpc then some { sk with tp := tcp_reno_cong_avoid sk.tp acked }
  else if !sk.tp.tcp_is_cwnd_limited then some sk
  else if sk.tp.snd_cwnd ≤ sk.tp.snd_ssthresh then
    mptcp_ccc_recalc_alpha { sk with tp := tcp_slow_start sk.tp acked }
  else
    match cong_avoid_forced sk with
    | none => none
    | some sk1 =>
      match snd_cwnd_target sk1 with
      | none => none
      | some snd_cwnd => cong_avoid_ai sk1 snd_cwnd

/-! ## Auxiliary definitions used in the statements -/

/-- The state on entry to the body of `mptcp_ccc_recalc_alpha`: the ghost
counter has advanced by one. -/
def sock.entered (sk : sock) : sock := { sk with recalc_calls := sk.recalc_calls + 1 }

/-- The value `mptcp_ccc_recalc_alpha` passes to `mptcp_set_alpha` for an
attached control block; `none` when the division of line 151 faults. -/
def lia_alpha (mpcb : mptcp_cb) (tp : tcp_sock) : Option Nat :=
  if mpcb.cnt_established ≤ 1 then some 1
  else
    let subs := mptcp_for_each_sk mpcb tp
    let scan := find_max_numerator subs alpha_scan.init
    if scan.can_send = 0 then some 1
    else
      match div64_u64 (mptcp_ccc_scale scan.best_cwnd alpha_scale_num)
          (squared_denominator subs) with
      | none => none
      | some alpha => some (if alpha = 0 then 1 else alpha)

/-- Example: two send-eligible subflows `(cwnd, srtt) = (10, 100), (10, 200)`. -/
def ex_tp1 : tcp_sock :=
  { snd_cwnd := 10, snd_ssthresh := 5, snd_cwnd_cnt := 0, snd_cwnd_clamp := 100,
    srtt_us := 100, mptcp_sk_can_send := true, tcp_is_cwnd_limited := true }

def ex_tp2 : tcp_sock := { ex_tp1 with srtt_us := 200 }

/-- Example connection: hook called on the first of the two subflows. -/
def ex_sock (cnt alpha : Nat) (forced : Bool) : sock :=
  { tp := ex_tp1, mpc := true,
    mpcb := some { cnt_established := cnt, pre := [], post := [ex_tp2] },
    meta_ca := { alpha := alpha, forced_update := forced }, recalc_calls := 0 }

/-- Example connection with two established subflows none of which may send:
the first has no RTT sample yet, the second is barred by the host. -/
def ex_no_sender (alpha : Nat) : sock :=
  { tp := { ex_tp1 with srtt_us := 0 }, mpc := true,
    mpcb := some { cnt_established := 2, pre := [],
                   post := [{ ex_tp2 with mptcp_sk_can_send := false }] },
    meta_ca := { alpha := alpha, forced_update := false }, recalc_calls := 0 }

/-- Example connection whose only send-eligible subflow has `cwnd = 2 ^ 22`:
the denominator sum is `2 ^ 32` and its square wraps to zero. -/
def ex_wrap : sock :=
  { tp := { ex_tp1 with snd_cwnd := 2 ^ 22, snd_cwnd_clamp := 2 ^ 23 }, mpc := true,
    mpcb := some { cnt_established := 2, pre := [],
                   post := [{ ex_tp2 with mptcp_sk_can_send := false }] },
    meta_ca := { alpha := 1, forced_update := false }, recalc_calls := 0 }

/-- The `best_cwnd` selected by the first loop over `subs`. -/
def best_cwnd (subs : List tcp_sock) : Nat :=
  (find_max_numerator subs alpha_scan.init).best_cwnd

/-- The `best_rtt` selected by the first loop over `subs`. -/
def best_rtt (subs : List tcp_sock) : Nat :=
  (find_max_numerator subs alpha_scan.init).best_rtt

/-- The sum `S` as the specification words it, in exact arithmetic: over the
send-eligible subflows, `floor(cwnd_i * 2^10 * best_rtt / srtt_i)`. -/
def spec_sum_denominator (rtt : Nat) (subs : List tcp_sock) : Nat :=
  ((subs.filter mptcp_ccc_sk_can_send).map
    (fun t => t.snd_cwnd * 2 ^ 10 * rtt / t.srtt_us)).sum

/-- The coefficient as the specification words it, in exact arithmetic:
`max(1, floor(best_cwnd * 2^32 / S^2))`. -/
def spec_alpha (subs : List tcp_sock) : Nat :=
  max 1 (best_cwnd subs * 2 ^ 32 / spec_sum_denominator (best_rtt subs) subs ^ 2)

/-- Example connection whose only send-eligible subflow, hence its best path,
has `cwnd = 0`: the denominator sum is zero. -/
def ex_zero_cwnd : sock :=
  { tp := { ex_tp1 with snd_cwnd := 0 }, mpc := true,
    mpcb := some { cnt_established := 2, pre := [],
                   post := [{ ex_tp2 with mptcp_sk_can_send := false }] },
    meta_ca := { alpha := 1, forced_update := false }, recalc_calls := 0 }

/-- One delivery of an acknowledgment by the host: the arguments of the hook
together with the values the host may have changed since the previous call
(the window-limited flag, the stored alpha, the established count). -/
structure ack_event where
  ack : Nat
  acked : Nat
  cwnd_limited : Bool
  alpha : Nat
  cnt_established : Nat
  deriving DecidableEq

/-- The state the hook sees for an event. -/
def ack_event.apply (e : ack_event) (sk : sock) : sock :=
  { sk with
    tp := { sk.tp with tcp_is_cwnd_limited := e.cwnd_limited },
    meta_ca := { sk.meta_ca with alpha := e.alpha },
    mpcb := sk.mpcb.map (fun m => { m with cnt_established := e.cnt_established }) }

/-- A finite sequence of `mptcp_ccc_cong_avoid` calls on one subflow. -/
def on_ack_seq : sock → List ack_event → Option sock
  | sk, [] => some sk
  | sk, e :: rest =>
    match mptcp_ccc_cong_avoid (e.apply sk) e.ack e.acked with
    | none => none
    | some sk1 => on_ack_seq sk1 rest

/-- Example subflow in slow start: `cwnd = 2`, `ssthresh = 20`. -/
def ex_slow_start : sock :=
  { tp := { ex_tp1 with snd_cwnd := 2, snd_ssthresh := 20 }, mpc := true,
    mpcb := some { cnt_established := 2, pre := [], post := [ex_tp2] },
    meta_ca := { alpha := 1, forced_update := true }, recalc_calls := 0 }

/-- Example subflow in congestion avoidance whose counter is `cnt`. -/
def ex_cong_avoid (cnt_established alpha cnt : Nat) (forced limited : Bool) : sock :=
  { tp := { ex_tp1 with snd_cwnd_cnt := cnt, tcp_is_cwnd_limited := limited }, mpc := true,
    mpcb := some { cnt_established := cnt_established, pre := [], post := [ex_tp2] },
    meta_ca := { alpha := alpha, forced_update := forced }, recalc_calls := 0 }

/-- Example subflow one packet below its clamp (`cwnd = 10`, clamp 11) with a
full counter. -/
def ex_near_clamp : sock :=
  { tp := { ex_tp1 with snd_cwnd_cnt := 10, snd_cwnd_clamp := 11 }, mpc := true,
    mpcb := some { cnt_established := 2, pre := [], post := [ex_tp2] },
    meta_ca := { alpha := 1, forced_update := false }, recalc_calls := 0 }

/-- Three acknowledgments: one with a single established subflow, two with
two established subflows and alpha 4096. -/
def ex_events : List ack_event :=
  [ { ack := 0, acked := 1, cwnd_limited := true, alpha := 1, cnt_established := 1 },
    { ack := 0, acked := 5, cwnd_limited := true, alpha := 4096, cnt_established := 2 },
    { ack := 0, acked := 2, cwnd_limited := false, alpha := 0, cnt_established := 2 } ]

/-- The target as the specification words it, in exact arithmetic: with more
than one established subflow `max(floor(2^12 / a), cwnd)` where `a` is alpha,
or 1 when alpha is zero; otherwise `cwnd`. -/
def spec_target (cnt_established alpha cwnd : Nat) : Nat :=
  if cnt_established > 1 then max (2 ^ 12 / (if alpha = 0 then 1 else alpha)) cwnd
  else cwnd

/-- The divisor `div_u64` uses in `mptcp_ccc_cong_avoid`: alpha, or 1 when
alpha is zero, cut to the 32 bits of the divisor parameter. -/
def alpha_divisor (alpha : Nat) : Nat :=
  (if alpha = 0 then 1 else alpha) % 2 ^ 32

/-- The host's `enum tcp_ca_event`, as the source file quotes it next to
`mptcp_ccc_cwnd_event`. -/
inductive tcp_ca_event where
  | CA_EVENT_TX_START
  | CA_EVENT_CWND_RESTART
  | CA_EVENT_COMPLETE_CWR
  | CA_EVENT_LOSS
  | CA_EVENT_ECN_NO_CE
  | CA_EVENT_ECN_IS_CE
  | CA_EVENT_DELAYED_ACK
  | CA_EVENT_NON_DELAYED_ACK
  deriving DecidableEq

/-- The function `mptcp_ccc_cwnd_event`. -/
def mptcp_ccc_cwnd_event (sk : sock) (event : tcp_ca_event) : Option sock :=
  if event = tcp_ca_event.CA_EVENT_LOSS then mptcp_ccc_recalc_alpha sk else some sk

/-- The function `mptcp_ccc_set_state`; the body does not use `ca_state`. -/
def mptcp_ccc_set_state (sk : sock) (_ca_state : Nat) : sock :=
  if !sk.mpc then sk else mptcp_set_forced sk true

/-- The candidate as the specification words it, in exact arithmetic:
`floor(cwnd * 2^32 / srtt^2)`. -/
def spec_candidate (t : tcp_sock) : Nat :=
  t.snd_cwnd * 2 ^ 32 / t.srtt_us ^ 2

/-- The subflow at which the state of the window step is taken once `cwnd` has
been incremented. -/
def sock.cwnd_incremented (sk : sock) : sock :=
  { sk with tp := { sk.tp with snd_cwnd := sk.tp.snd_cwnd + 1 } }

/-- Example list with a tie: the first and the third subflow have the same,
maximal candidate; the second is better still but may not send. -/
def ex_tie : List tcp_sock :=
  [ { ex_tp1 with snd_cwnd := 10, srtt_us := 100 },
    { ex_tp1 with snd_cwnd := 50, srtt_us := 100, mptcp_sk_can_send := false },
    { ex_tp1 with snd_cwnd := 40, srtt_us := 200 },
    { ex_tp1 with snd_cwnd := 10, srtt_us := 200 } ]

/-- Example socket that is not part of a multipath connection. -/
def ex_plain : sock :=
  { tp := ex_tp1, mpc := false, mpcb := none,
    meta_ca := { alpha := 5, forced_update := false }, recalc_calls := 0 }

/-! ## Basic facts about `mptcp_ccc_recalc_alpha` -/

theorem recalc_eq (sk : sock) :
    mptcp_ccc_recalc_alpha sk =
      match sk.mpcb with
      | none => some sk.entered
      | some mpcb => (lia_alpha mpcb sk.tp).map (fun a => mptcp_set_alpha sk.entered a) := by
  unfold mptcp_ccc_recalc_alpha lia_alpha squared_denominator sock.entered
  cases hm : sk.mpcb with
  | none => simp
  | some mpcb =>
    simp only []
    split_ifs <;> simp
    split <;> simp_all

theorem find_max_numerator_can_send (l : List tcp_sock) (acc : alpha_scan) :
    (find_max_numerator l acc).can_send
      = acc.can_send + (l.filter mptcp_ccc_sk_can_send).length := by
  induction l generalizing acc with
  | nil => simp [find_max_numerator]
  | cons t rest ih =>
    unfold find_max_numerator
    cases ht : mptcp_ccc_sk_can_send t with
    | false => simp [ih, ht]
    | true =>
      simp only [Bool.not_true, Bool.false_eq_true, if_false, ht]
      split_ifs <;> simp [ih, ht] <;> omega

theorem can_send_zero_iff (l : List tcp_sock) :
    (find_max_numerator l alpha_scan.init).can_send = 0
      ↔ ∀ t ∈ l, mptcp_ccc_sk_can_send t = false := by
  rw [find_max_numerator_can_send]
  simp [alpha_scan.init, List.filter_eq_nil_iff]

theorem lia_alpha_eq_none_iff (mpcb : mptcp_cb) (tp : tcp_sock)
    (hc : 1 < mpcb.cnt_established)
    (he : ∃ t ∈ mptcp_for_each_sk mpcb tp, mptcp_ccc_sk_can_send t = true) :
    lia_alpha mpcb tp = none ↔ squared_denominator (mptcp_for_each_sk mpcb tp) = 0 := by
  have h0 : (find_max_numerator (mptcp_for_each_sk mpcb tp) alpha_scan.init).can_send ≠ 0 := by
    rw [Ne, can_send_zero_iff]
    obtain ⟨t, ht, hs⟩ := he
    intro h
    simp [h t ht] at hs
  unfold lia_alpha div64_u64
  rw [if_neg (by omega)]
  simp only [h0, if_false]
  by_cases hz : squared_denominator (mptcp_for_each_sk mpcb tp) = 0 <;> simp [hz]

theorem lia_alpha_pos (mpcb : mptcp_cb) (tp : tcp_sock) (a : Nat)
    (h : lia_alpha mpcb tp = some a) : 1 ≤ a := by
  unfold lia_alpha div64_u64 at h
  by_cases hc : mpcb.cnt_established ≤ 1
  · simp [hc] at h; omega
  · by_cases h0 : (find_max_numerator (mptcp_for_each_sk mpcb tp) alpha_scan.init).can_send = 0
    · simp [hc, h0] at h; omega
    · by_cases hz : squared_denominator (mptcp_for_each_sk mpcb tp) = 0
      · simp [hc, h0, hz] at h
      · simp only [hc, h0, hz, if_false, Option.some.injEq] at h
        split_ifs at h <;> omega

/-! ## Claims about `mptcp_ccc_recalc_alpha` -/

/-- C1: with a control block attached and `cnt_established <= 1`, the
recomputation completes and stores `alpha = 1`, whatever the subflow list
(cwnd, srtt, send-eligibility) and whatever alpha `a` was stored before; this
covers an alpha computed earlier with two established subflows. -/
theorem recalc_alpha_single_path (sk : sock) (mpcb : mptcp_cb) (a : Nat)
    (hm : sk.mpcb = some mpcb) (hc : mpcb.cnt_established ≤ 1) :
    ∃ sk', mptcp_ccc_recalc_alpha (mptcp_set_alpha sk a) = some sk' ∧
      sk'.meta_ca.alpha = 1 ∧ sk'.real = (mptcp_set_alpha sk 1).real := by
  refine ⟨mptcp_set_alpha (mptcp_set_alpha sk a).entered 1, ?_, rfl, rfl⟩
  rw [recalc_eq]
  have : (mptcp_set_alpha sk a).mpcb = some mpcb := hm
  simp [this, lia_alpha, hc]

/-- Scenario B: alpha is 182 after a recomputation with two established
subflows; once the count has dropped to one the next recomputation stores 1. -/
theorem recalc_alpha_single_path_witness :
    (mptcp_ccc_recalc_alpha (ex_sock 2 1 false)).map (fun s => s.meta_ca.alpha) = some 182 ∧
    ∃ sk', mptcp_ccc_recalc_alpha (mptcp_set_alpha (ex_sock 1 1 false) 182) = some sk' ∧
      sk'.meta_ca.alpha = 1 ∧ sk'.real = (mptcp_set_alpha (ex_sock 1 1 false) 1).real :=
  ⟨by decide,
   recalc_alpha_single_path (ex_sock 1 1 false) ⟨1, [], [ex_tp2]⟩ 182 rfl (by decide)⟩

/-- C2 as stated fails: with two established subflows, none of them
send-eligible, and a previous alpha of 7, the recomputation stores 1. -/
theorem recalc_alpha_no_sender_counterexample :
    (ex_no_sender 7).mpcb
        = some ⟨2, [], [{ ex_tp2 with mptcp_sk_can_send := false }]⟩ ∧
    (∀ t ∈ mptcp_for_each_sk ⟨2, [], [{ ex_tp2 with mptcp_sk_can_send := false }]⟩
        (ex_no_sender 7).tp, t.srtt_us = 0 ∨ t.mptcp_sk_can_send = false) ∧
    (ex_no_sender 7).meta_ca.alpha = 7 ∧
    (mptcp_ccc_recalc_alpha (ex_no_sender 7)).map (fun s => s.meta_ca.alpha) = some 1 := by
  decide

/-- C2 amended: when no subflow is send-eligible the recomputation completes
and stores the neutral value 1, whatever alpha was stored before and whatever
the established count (in particular when it exceeds 1); nothing else
changes. -/
theorem recalc_alpha_no_sender (sk : sock) (mpcb : mptcp_cb)
    (hm : sk.mpcb = some mpcb)
    (hn : ∀ t ∈ mptcp_for_each_sk mpcb sk.tp, t.srtt_us = 0 ∨ t.mptcp_sk_can_send = false) :
    ∃ sk', mptcp_ccc_recalc_alpha sk = some sk' ∧
      sk'.meta_ca.alpha = 1 ∧ sk'.real = (mptcp_set_alpha sk 1).real := by
  refine ⟨mptcp_set_alpha sk.entered 1, ?_, rfl, rfl⟩
  rw [recalc_eq]
  have h0 : (find_max_numerator (mptcp_for_each_sk mpcb sk.tp) alpha_scan.init).can_send = 0 := by
    rw [can_send_zero_iff]
    intro t ht
    rcases hn t ht with h | h <;> simp [mptcp_ccc_sk_can_send, h]
  simp [hm, lia_alpha, h0]

theorem recalc_alpha_no_sender_witness :
    ∃ sk', mptcp_ccc_recalc_alpha (ex_no_sender 7) = some sk' ∧
      sk'.meta_ca.alpha = 1 ∧ sk'.real = (mptcp_set_alpha (ex_no_sender 7) 1).real :=
  recalc_alpha_no_sender (ex_no_sender 7)
    ⟨2, [], [{ ex_tp2 with mptcp_sk_can_send := false }]⟩ rfl (by decide)

/-- C3: with `cnt_established > 1` and at least one send-eligible subflow,
every recomputation that stores a coefficient stores one that is at least 1
(the value `mptcp_ccc_init` stores), hence never 0; the recomputation stores a
coefficient exactly when the squared denominator it divides by is non-zero. -/
theorem recalc_alpha_ge_one (sk : sock) (mpcb : mptcp_cb)
    (hm : sk.mpcb = some mpcb) (hc : 1 < mpcb.cnt_established)
    (he : ∃ t ∈ mptcp_for_each_sk mpcb sk.tp, mptcp_ccc_sk_can_send t = true) :
    (∀ sk', mptcp_ccc_recalc_alpha sk = some sk' →
      (mptcp_ccc_init { sk with mpc := true }).meta_ca.alpha ≤ sk'.meta_ca.alpha ∧
      1 ≤ sk'.meta_ca.alpha ∧ sk'.meta_ca.alpha ≠ 0) ∧
    ((∃ sk', mptcp_ccc_recalc_alpha sk = some sk') ↔
      squared_denominator (mptcp_for_each_sk mpcb sk.tp) ≠ 0) := by
  constructor
  · intro sk' h
    rw [recalc_eq] at h
    simp only [hm, Option.map_eq_some'] at h
    obtain ⟨a, ha, rfl⟩ := h
    have := lia_alpha_pos mpcb sk.tp a ha
    simp only [mptcp_ccc_init, mptcp_set_alpha, mptcp_set_forced, if_true]
    omega
  · rw [← not_iff_not, not_not, ← lia_alpha_eq_none_iff mpcb sk.tp hc he, recalc_eq]
    simp only [hm]
    cases lia_alpha mpcb sk.tp <;> simp

theorem recalc_alpha_ge_one_witness :
    (∀ sk', mptcp_ccc_recalc_alpha (ex_sock 2 0 false) = some sk' →
      (mptcp_ccc_init { ex_sock 2 0 false with mpc := true }).meta_ca.alpha ≤ sk'.meta_ca.alpha ∧
      1 ≤ sk'.meta_ca.alpha ∧ sk'.meta_ca.alpha ≠ 0) ∧
    ((∃ sk', mptcp_ccc_recalc_alpha (ex_sock 2 0 false) = some sk') ↔
      squared_denominator (mptcp_for_each_sk ⟨2, [], [ex_tp2]⟩ (ex_sock 2 0 false).tp) ≠ 0) ∧
    (mptcp_ccc_recalc_alpha (ex_sock 2 0 false)).map (fun s => s.meta_ca.alpha) = some 182 :=
  ⟨(recalc_alpha_ge_one (ex_sock 2 0 false) ⟨2, [], [ex_tp2]⟩ rfl (by decide)
      ⟨ex_tp1, by decide, by decide⟩).1,
   (recalc_alpha_ge_one (ex_sock 2 0 false) ⟨2, [], [ex_tp2]⟩ rfl (by decide)
      ⟨ex_tp1, by decide, by decide⟩).2, by decide⟩

theorem recalc_alpha_idempotent_aux (sk sk1 : sock)
    (h : mptcp_ccc_recalc_alpha sk = some sk1) :
    (mptcp_ccc_recalc_alpha sk1).map sock.real = some sk1.real := by
  rw [recalc_eq] at h
  rw [recalc_eq]
  cases hm : sk.mpcb with
  | none =>
    simp only [hm, Option.some.injEq] at h
    subst h
    simp [sock.entered, hm, sock.real]
  | some mpcb =>
    simp only [hm, Option.map_eq_some'] at h
    obtain ⟨a, ha, rfl⟩ := h
    simp [mptcp_set_alpha, sock.entered, hm, ha, sock.real]

/-- C5: the recomputation is idempotent.  Running it a second time right
after the first (same subflows, same established count) leaves the state the
first run left; and with a control block attached its outcome does not depend
on the alpha stored beforehand.  States are compared up to the ghost counter. -/
theorem recalc_alpha_idempotent (sk : sock) :
    ((mptcp_ccc_recalc_alpha sk).bind mptcp_ccc_recalc_alpha).map sock.real
        = (mptcp_ccc_recalc_alpha sk).map sock.real ∧
    (sk.mpcb ≠ none → ∀ a : Nat,
      (mptcp_ccc_recalc_alpha (mptcp_set_alpha sk a)).map sock.real
        = (mptcp_ccc_recalc_alpha sk).map sock.real) := by
  constructor
  · cases h : mptcp_ccc_recalc_alpha sk with
    | none => rfl
    | some sk1 => simpa using recalc_alpha_idempotent_aux sk sk1 h
  · intro hm a
    rw [recalc_eq, recalc_eq]
    cases hm' : sk.mpcb with
    | none => exact absurd hm' hm
    | some mpcb =>
      have hm2 : (mptcp_set_alpha sk a).mpcb = some mpcb := hm'
      have htp : (mptcp_set_alpha sk a).tp = sk.tp := rfl
      simp only [hm2, htp]
      generalize lia_alpha mpcb sk.tp = o
      cases o <;> simp [mptcp_set_alpha, sock.entered, sock.real]

theorem recalc_alpha_idempotent_witness :
    (((mptcp_ccc_recalc_alpha (ex_sock 2 9 true)).bind mptcp_ccc_recalc_alpha).map sock.real
        = (mptcp_ccc_recalc_alpha (ex_sock 2 9 true)).map sock.real ∧
     ((ex_sock 2 9 true).mpcb ≠ none → ∀ a : Nat,
      (mptcp_ccc_recalc_alpha (mptcp_set_alpha (ex_sock 2 9 true) a)).map sock.real
        = (mptcp_ccc_recalc_alpha (ex_sock 2 9 true)).map sock.real)) ∧
    ((mptcp_ccc_recalc_alpha (ex_sock 2 9 true)).bind mptcp_ccc_recalc_alpha).map
        (fun s => s.meta_ca.alpha) = some 182 :=
  ⟨recalc_alpha_idempotent (ex_sock 2 9 true), by decide⟩

/-! ## The coefficient formula -/

theorem mptcp_ccc_scale_num (v : Nat) (hv : v < 2 ^ 32) :
    mptcp_ccc_scale v alpha_scale_num = v * 2 ^ 32 := by
  unfold mptcp_ccc_scale alpha_scale_num
  norm_num at hv ⊢
  omega

theorem mptcp_ccc_scale_den (v : Nat) (hv : v < 2 ^ 32) :
    mptcp_ccc_scale v alpha_scale_den = v * 2 ^ 10 := by
  unfold mptcp_ccc_scale alpha_scale_den
  norm_num at hv ⊢
  omega

theorem int_to_u64_of_lt (x : Nat) (hx : x < 2 ^ 31) : int_to_u64 x = x := by
  unfold int_to_u64
  have h1 : x % 2 ^ 32 = x := Nat.mod_eq_of_lt (by norm_num at hx ⊢; omega)
  rw [h1, if_pos hx]

theorem calc_sum_denominator_eq (rtt : Nat) (l : List tcp_sock) (sum : Nat)
    (hs : sum < 2 ^ 64) :
    calc_sum_denominator rtt l sum
      = (sum + ((l.filter mptcp_ccc_sk_can_send).map (denominator_term rtt)).sum) % 2 ^ 64 := by
  induction l generalizing sum with
  | nil => simp [calc_sum_denominator]; exact (Nat.mod_eq_of_lt hs).symm
  | cons t rest ih =>
    unfold calc_sum_denominator
    cases ht : mptcp_ccc_sk_can_send t with
    | false => simp [ht, ih sum hs]
    | true =>
      simp only [Bool.not_true, Bool.false_eq_true, if_false, ht]
      rw [ih _ (Nat.mod_lt _ (by norm_num))]
      simp [List.filter_cons, ht, Nat.add_assoc]

/-- The first loop either selects a send-eligible member of the list or, when
every eligible member's candidate is below the incoming maximum, keeps the
incoming selection. -/
theorem find_max_numerator_sel (l : List tcp_sock) (acc : alpha_scan) :
    (∃ t ∈ l, mptcp_ccc_sk_can_send t = true ∧
        (find_max_numerator l acc).best_cwnd = t.snd_cwnd ∧
        (find_max_numerator l acc).best_rtt = t.srtt_us ∧
        (find_max_numerator l acc).max_numerator = numerator_candidate t) ∨
    ((∀ t ∈ l, mptcp_ccc_sk_can_send t = true → numerator_candidate t < acc.max_numerator) ∧
        (find_max_numerator l acc).best_cwnd = acc.best_cwnd ∧
        (find_max_numerator l acc).best_rtt = acc.best_rtt ∧
        (find_max_numerator l acc).max_numerator = acc.max_numerator) := by
  induction l generalizing acc with
  | nil => right; simp [find_max_numerator]
  | cons t rest ih =>
    unfold find_max_numerator
    cases ht : mptcp_ccc_sk_can_send t with
    | false =>
      simp only [Bool.not_false, if_true]
      rcases ih acc with ⟨u, hu, h⟩ | ⟨h1, h2⟩
      · exact Or.inl ⟨u, List.mem_cons_of_mem _ hu, h⟩
      · refine Or.inr ⟨?_, h2⟩
        intro u hu hs
        rcases List.mem_cons.mp hu with rfl | hu
        · simp [ht] at hs
        · exact h1 u hu hs
    | true =>
      simp only [Bool.not_true, Bool.false_eq_true, if_false]
      by_cases hge : numerator_candidate t ≥ acc.max_numerator
      · simp only [hge, if_true]
        rcases ih { max_numerator := numerator_candidate t, best_cwnd := t.snd_cwnd,
                    best_rtt := t.srtt_us, can_send := acc.can_send + 1 }
          with ⟨u, hu, h⟩ | ⟨_, h2, h3, h4⟩
        · exact Or.inl ⟨u, List.mem_cons_of_mem _ hu, h⟩
        · exact Or.inl ⟨t, List.mem_cons_self _ _, ht, h2, h3, h4⟩
      · simp only [hge, if_false]
        rcases ih { acc with can_send := acc.can_send + 1 } with ⟨u, hu, h⟩ | ⟨h1, h2⟩
        · exact Or.inl ⟨u, List.mem_cons_of_mem _ hu, h⟩
        · refine Or.inr ⟨?_, h2⟩
          intro u hu hs
          rcases List.mem_cons.mp hu with rfl | hu
          · omega
          · exact h1 u hu hs

/-- With at least one send-eligible subflow the selected best path is a
send-eligible member of the list. -/
theorem best_path_mem (l : List tcp_sock)
    (he : ∃ t ∈ l, mptcp_ccc_sk_can_send t = true) :
    ∃ t ∈ l, mptcp_ccc_sk_can_send t = true ∧
      best_cwnd l = t.snd_cwnd ∧ best_rtt l = t.srtt_us := by
  rcases find_max_numerator_sel l alpha_scan.init with ⟨t, ht, hs, h1, h2, _⟩ | ⟨h, _⟩
  · exact ⟨t, ht, hs, h1, h2⟩
  · obtain ⟨t, ht, hs⟩ := he
    have := h t ht hs
    simp [alpha_scan.init] at this

theorem denominator_term_eq (rtt : Nat) (t : tcp_sock) (hw : t.wf) (hr : rtt < 2 ^ 31)
    (hp : t.snd_cwnd * 2 ^ 10 * rtt < 2 ^ 64) :
    denominator_term rtt t = t.snd_cwnd * 2 ^ 10 * rtt / t.srtt_us := by
  unfold denominator_term
  rw [mptcp_ccc_scale_den _ hw.1, int_to_u64_of_lt _ hr, Nat.mod_eq_of_lt hp]

theorem squared_denominator_eq (l : List tcp_sock)
    (hwf : ∀ t ∈ l, t.wf) (hbr : best_rtt l < 2 ^ 31)
    (hprod : ∀ t ∈ l, mptcp_ccc_sk_can_send t = true →
      t.snd_cwnd * 2 ^ 10 * best_rtt l < 2 ^ 64)
    (hsum : spec_sum_denominator (best_rtt l) l < 2 ^ 32) :
    squared_denominator l = spec_sum_denominator (best_rtt l) l ^ 2 := by
  have hmap : (l.filter mptcp_ccc_sk_can_send).map (denominator_term (best_rtt l))
      = (l.filter mptcp_ccc_sk_can_send).map
          (fun t => t.snd_cwnd * 2 ^ 10 * best_rtt l / t.srtt_us) := by
    apply List.map_congr_left
    intro t ht
    rw [List.mem_filter] at ht
    exact denominator_term_eq _ t (hwf t ht.1) hbr (hprod t ht.1 ht.2)
  have hS : calc_sum_denominator (best_rtt l) l 0 = spec_sum_denominator (best_rtt l) l := by
    rw [calc_sum_denominator_eq _ _ _ (by norm_num), hmap, Nat.zero_add]
    exact Nat.mod_eq_of_lt (lt_trans hsum (by norm_num))
  unfold squared_denominator
  show calc_sum_denominator (best_rtt l) l 0 * calc_sum_denominator (best_rtt l) l 0 % 2 ^ 64 = _
  rw [hS, sq]
  apply Nat.mod_eq_of_lt
  calc spec_sum_denominator (best_rtt l) l * spec_sum_denominator (best_rtt l) l
      < 2 ^ 32 * 2 ^ 32 := by
        apply Nat.mul_lt_mul_of_lt_of_le hsum (le_of_lt hsum) (by norm_num)
    _ = 2 ^ 64 := by norm_num

/-- When the best path has a window of at least one packet, the exact sum `S`
is at least `2 ^ 10` times that window, in particular non-zero. -/
theorem spec_sum_denominator_ge (l : List tcp_sock)
    (he : ∃ t ∈ l, mptcp_ccc_sk_can_send t = true) :
    best_cwnd l * 2 ^ 10 ≤ spec_sum_denominator (best_rtt l) l := by
  obtain ⟨t, ht, hs, hc, hr⟩ := best_path_mem l he
  have hr0 : t.srtt_us ≠ 0 := by
    simp [mptcp_ccc_sk_can_send] at hs
    exact hs.2
  have hmem : t.snd_cwnd * 2 ^ 10 * best_rtt l / t.srtt_us ∈
      (l.filter mptcp_ccc_sk_can_send).map
        (fun t => t.snd_cwnd * 2 ^ 10 * best_rtt l / t.srtt_us) :=
    List.mem_map.mpr ⟨t, List.mem_filter.mpr ⟨ht, hs⟩, rfl⟩
  have hterm : t.snd_cwnd * 2 ^ 10 * best_rtt l / t.srtt_us = best_cwnd l * 2 ^ 10 := by
    rw [hr, hc, Nat.mul_div_cancel _ (Nat.pos_of_ne_zero hr0)]
  have hle := List.le_sum_of_mem hmem
  rw [hterm] at hle
  exact hle

theorem lia_alpha_formula (mpcb : mptcp_cb) (tp : tcp_sock)
    (hc : 1 < mpcb.cnt_established)
    (he : ∃ t ∈ mptcp_for_each_sk mpcb tp, mptcp_ccc_sk_can_send t = true)
    (hwf : ∀ t ∈ mptcp_for_each_sk mpcb tp, t.wf)
    (hbr : best_rtt (mptcp_for_each_sk mpcb tp) < 2 ^ 31)
    (hprod : ∀ t ∈ mptcp_for_each_sk mpcb tp, mptcp_ccc_sk_can_send t = true →
      t.snd_cwnd * 2 ^ 10 * best_rtt (mptcp_for_each_sk mpcb tp) < 2 ^ 64)
    (hsum : spec_sum_denominator (best_rtt (mptcp_for_each_sk mpcb tp))
      (mptcp_for_each_sk mpcb tp) < 2 ^ 32) :
    lia_alpha mpcb tp =
      if spec_sum_denominator (best_rtt (mptcp_for_each_sk mpcb tp))
          (mptcp_for_each_sk mpcb tp) = 0 then none
      else some (spec_alpha (mptcp_for_each_sk mpcb tp)) := by
  have h0 : (find_max_numerator (mptcp_for_each_sk mpcb tp) alpha_scan.init).can_send ≠ 0 := by
    rw [Ne, can_send_zero_iff]
    obtain ⟨t, ht, hs⟩ := he
    intro h
    simp [h t ht] at hs
  have hbc : best_cwnd (mptcp_for_each_sk mpcb tp) < 2 ^ 32 := by
    obtain ⟨t, ht, _, hcw, _⟩ := best_path_mem _ he
    rw [hcw]; exact (hwf t ht).1
  unfold lia_alpha div64_u64
  rw [if_neg (by omega)]
  simp only [h0, if_false]
  rw [squared_denominator_eq _ hwf hbr hprod hsum]
  show (match (if _ = 0 then none
      else some (mptcp_ccc_scale (best_cwnd (mptcp_for_each_sk mpcb tp)) alpha_scale_num / _))
      with | none => none | some alpha => some (if alpha = 0 then 1 else alpha)) = _
  rw [mptcp_ccc_scale_num _ hbc]
  by_cases hz : spec_sum_denominator (best_rtt (mptcp_for_each_sk mpcb tp))
      (mptcp_for_each_sk mpcb tp) = 0
  · simp [hz]
  · simp only [hz, pow_eq_zero_iff, ne_eq, OfNat.ofNat_ne_zero, not_false_eq_true, if_false,
      spec_alpha]
    congr 1
    split_ifs with hq
    · rw [hq]; rfl
    · exact (max_eq_right (Nat.one_le_iff_ne_zero.mpr hq)).symm

/-- C4: with `cnt_established > 1`, at least one send-eligible subflow, all
subflow fields in `u32` range and no wrap-around (`best_rtt < 2^31`, every
`cwnd_i * 2^10 * best_rtt < 2^64`, the exact sum `S < 2^32`), the coefficient
the recomputation stores is `max(1, floor(best_cwnd * 2^32 / S^2))`, where `S`
sums `floor(cwnd_i * 2^10 * best_rtt / srtt_i)` over the send-eligible subflows
only.  It is stored whenever the best path has a window of at least one packet;
in general the recomputation stores a coefficient exactly when the quotient is
defined (`S` non-zero), and any coefficient it stores is the one above. -/
theorem recalc_alpha_formula (sk : sock) (mpcb : mptcp_cb)
    (hm : sk.mpcb = some mpcb) (hc : 1 < mpcb.cnt_established)
    (he : ∃ t ∈ mptcp_for_each_sk mpcb sk.tp, mptcp_ccc_sk_can_send t = true)
    (hwf : ∀ t ∈ mptcp_for_each_sk mpcb sk.tp, t.wf)
    (hbr : best_rtt (mptcp_for_each_sk mpcb sk.tp) < 2 ^ 31)
    (hprod : ∀ t ∈ mptcp_for_each_sk mpcb sk.tp, mptcp_ccc_sk_can_send t = true →
      t.snd_cwnd * 2 ^ 10 * best_rtt (mptcp_for_each_sk mpcb sk.tp) < 2 ^ 64)
    (hsum : spec_sum_denominator (best_rtt (mptcp_for_each_sk mpcb sk.tp))
      (mptcp_for_each_sk mpcb sk.tp) < 2 ^ 32) :
    (1 ≤ best_cwnd (mptcp_for_each_sk mpcb sk.tp) →
      ∃ sk', mptcp_ccc_recalc_alpha sk = some sk' ∧
        sk'.meta_ca.alpha = spec_alpha (mptcp_for_each_sk mpcb sk.tp) ∧
        sk'.real = (mptcp_set_alpha sk (spec_alpha (mptcp_for_each_sk mpcb sk.tp))).real) ∧
    (∀ sk', mptcp_ccc_recalc_alpha sk = some sk' →
      sk'.meta_ca.alpha = spec_alpha (mptcp_for_each_sk mpcb sk.tp) ∧
      sk'.real = (mptcp_set_alpha sk (spec_alpha (mptcp_for_each_sk mpcb sk.tp))).real) ∧
    ((∃ sk', mptcp_ccc_recalc_alpha sk = some sk') ↔
      spec_sum_denominator (best_rtt (mptcp_for_each_sk mpcb sk.tp))
        (mptcp_for_each_sk mpcb sk.tp) ≠ 0) := by
  have hl := lia_alpha_formula mpcb sk.tp hc he hwf hbr hprod hsum
  have hr := recalc_eq sk
  simp only [hm, hl] at hr
  refine ⟨?_, ?_, ?_⟩
  · intro h1
    have hge := spec_sum_denominator_ge _ he
    have hz : spec_sum_denominator (best_rtt (mptcp_for_each_sk mpcb sk.tp))
        (mptcp_for_each_sk mpcb sk.tp) ≠ 0 := by omega
    rw [if_neg hz] at hr
    exact ⟨_, hr, rfl, rfl⟩
  · intro sk' h
    rw [hr] at h
    split_ifs at h with hz
    · simp at h
    · simp only [Option.map_some', Option.some.injEq] at h
      subst h
      exact ⟨rfl, rfl⟩
  · rw [hr]
    split_ifs with hz <;> simp [hz]

theorem recalc_alpha_formula_witness :
    (1 ≤ best_cwnd [ex_tp1, ex_tp2] →
      ∃ sk', mptcp_ccc_recalc_alpha (ex_sock 2 1 false) = some sk' ∧
        sk'.meta_ca.alpha = spec_alpha [ex_tp1, ex_tp2] ∧
        sk'.real = (mptcp_set_alpha (ex_sock 2 1 false) (spec_alpha [ex_tp1, ex_tp2])).real) ∧
    best_cwnd [ex_tp1, ex_tp2] = 10 ∧ best_rtt [ex_tp1, ex_tp2] = 100 ∧
    spec_sum_denominator (best_rtt [ex_tp1, ex_tp2]) [ex_tp1, ex_tp2] = 10240 + 5120 ∧
    spec_alpha [ex_tp1, ex_tp2] = 182 ∧
    (mptcp_ccc_recalc_alpha (ex_sock 2 1 false)).map (fun s => s.meta_ca.alpha) = some 182 :=
  ⟨(recalc_alpha_formula (ex_sock 2 1 false) ⟨2, [], [ex_tp2]⟩ rfl (by decide)
      ⟨ex_tp1, by decide, by decide⟩ (by decide) (by decide) (by decide) (by decide)).1,
   by decide, by decide, by decide, by decide, by decide⟩

/-! ## Claims about `mptcp_ccc_cong_avoid` -/

/-- The recomputation writes alpha and nothing else (the ghost counter
advances by one). -/
theorem recalc_frame (sk sk' : sock) (h : mptcp_ccc_recalc_alpha sk = some sk') :
    sk'.tp = sk.tp ∧ sk'.mpc = sk.mpc ∧ sk'.mpcb = sk.mpcb ∧
      sk'.meta_ca.forced_update = sk.meta_ca.forced_update ∧
      sk'.recalc_calls = sk.recalc_calls + 1 := by
  rw [recalc_eq] at h
  cases hm : sk.mpcb with
  | none =>
    simp only [hm, Option.some.injEq] at h
    subst h
    simp [sock.entered, hm]
  | some mpcb =>
    simp only [hm, Option.map_eq_some'] at h
    obtain ⟨a, _, rfl⟩ := h
    simp [mptcp_set_alpha, sock.entered, hm]

theorem cong_avoid_forced_frame (sk sk' : sock) (h : cong_avoid_forced sk = some sk') :
    sk'.tp = sk.tp ∧ sk'.mpc = sk.mpc ∧ sk'.mpcb = sk.mpcb := by
  unfold cong_avoid_forced at h
  split_ifs at h
  · cases hr : mptcp_ccc_recalc_alpha sk with
    | none => simp [hr] at h
    | some sk1 =>
      simp only [hr, Option.some.injEq] at h
      subst h
      obtain ⟨h1, h2, h3, _⟩ := recalc_frame sk sk1 hr
      exact ⟨h1, h2, h3⟩
  · simp only [Option.some.injEq] at h
    subst h
    exact ⟨rfl, rfl, rfl⟩

theorem tcp_slow_start_frame (tp : tcp_sock) (acked : Nat) :
    (tcp_slow_start tp acked).snd_cwnd ≤ (tcp_slow_start tp acked).snd_cwnd_clamp ∧
    (tcp_slow_start tp acked).snd_cwnd_clamp = tp.snd_cwnd_clamp ∧
    (tcp_slow_start tp acked).snd_cwnd_cnt = tp.snd_cwnd_cnt := by
  unfold tcp_slow_start
  simp

theorem tcp_reno_cong_avoid_clamp (tp : tcp_sock) (acked : Nat)
    (h : tp.snd_cwnd ≤ tp.snd_cwnd_clamp) :
    (tcp_reno_cong_avoid tp acked).snd_cwnd ≤ (tcp_reno_cong_avoid tp acked).snd_cwnd_clamp ∧
    (tcp_reno_cong_avoid tp acked).snd_cwnd_clamp = tp.snd_cwnd_clamp := by
  unfold tcp_reno_cong_avoid
  split_ifs with h1 h2 h3 h4
  · exact ⟨h, rfl⟩
  · exact ⟨(tcp_slow_start_frame tp acked).1, (tcp_slow_start_frame tp acked).2.1⟩
  · refine ⟨?_, rfl⟩
    show (tp.snd_cwnd + 1) % 2 ^ 32 ≤ tp.snd_cwnd_clamp
    exact le_trans (Nat.mod_le _ _) h4
  · exact ⟨h, rfl⟩
  · exact ⟨h, rfl⟩

theorem tcp_reno_cong_avoid_clamp_eq (tp : tcp_sock) (acked : Nat) :
    (tcp_reno_cong_avoid tp acked).snd_cwnd_clamp = tp.snd_cwnd_clamp := by
  unfold tcp_reno_cong_avoid
  split_ifs <;> rfl

/-- The window step of lines 247-256 changes `cwnd` only by adding one, and
only below the clamp. -/
theorem cong_avoid_ai_cwnd (sk sk' : sock) (w : Nat) (h : cong_avoid_ai sk w = some sk') :
    sk'.tp.snd_cwnd_clamp = sk.tp.snd_cwnd_clamp ∧
    (sk'.tp.snd_cwnd = sk.tp.snd_cwnd ∨
      (sk.tp.snd_cwnd < sk.tp.snd_cwnd_clamp ∧ w ≤ sk.tp.snd_cwnd_cnt ∧
        sk'.tp.snd_cwnd = (sk.tp.snd_cwnd + 1) % 2 ^ 32)) := by
  unfold cong_avoid_ai at h
  by_cases h1 : sk.tp.snd_cwnd_cnt ≥ w
  · by_cases h2 : sk.tp.snd_cwnd < sk.tp.snd_cwnd_clamp
    · rw [if_pos h1, if_pos h2] at h
      generalize hr : mptcp_ccc_recalc_alpha _ = r at h
      cases r with
      | none => simp at h
      | some sk1 =>
        simp only [Option.some.injEq] at h
        subst h
        obtain ⟨ht, _⟩ := recalc_frame _ sk1 hr
        refine ⟨?_, Or.inr ⟨h2, h1, ?_⟩⟩
        · show sk1.tp.snd_cwnd_clamp = _
          rw [ht]
        · show sk1.tp.snd_cwnd = _
          rw [ht]
    · rw [if_pos h1, if_neg h2] at h
      simp only [Option.some.injEq] at h
      subst h
      exact ⟨rfl, Or.inl rfl⟩
  · rw [if_neg h1] at h
    simp only [Option.some.injEq] at h
    subst h
    exact ⟨rfl, Or.inl rfl⟩

theorem cong_avoid_step (sk sk' : sock) (ack acked : Nat)
    (h : mptcp_ccc_cong_avoid sk ack acked = some sk') :
    sk'.tp.snd_cwnd_clamp = sk.tp.snd_cwnd_clamp ∧
    (sk.tp.snd_cwnd ≤ sk.tp.snd_cwnd_clamp → sk'.tp.snd_cwnd ≤ sk'.tp.snd_cwnd_clamp) ∧
    (sk.mpc = true → sk.tp.tcp_is_cwnd_limited = true → sk.tp.snd_ssthresh < sk.tp.snd_cwnd →
      sk'.tp.snd_cwnd = sk.tp.snd_cwnd ∨
        (sk.tp.snd_cwnd < sk.tp.snd_cwnd_clamp ∧
          sk'.tp.snd_cwnd = (sk.tp.snd_cwnd + 1) % 2 ^ 32)) := by
  unfold mptcp_ccc_cong_avoid at h
  by_cases hmpc : sk.mpc = true
  · by_cases hlim : sk.tp.tcp_is_cwnd_limited = true
    · by_cases hss : sk.tp.snd_cwnd ≤ sk.tp.snd_ssthresh
      · simp only [hmpc, hlim, hss, Bool.not_true, Bool.false_eq_true, if_false, if_true] at h
        obtain ⟨ht, _⟩ := recalc_frame _ sk' h
        have hf := tcp_slow_start_frame sk.tp acked
        rw [ht]
        exact ⟨hf.2.1, fun _ => hf.1, fun _ _ hca => absurd hss (by omega)⟩
      · simp only [hmpc, hlim, hss, Bool.not_true, Bool.false_eq_true, if_false] at h
        cases hf : cong_avoid_forced sk with
        | none => simp [hf] at h
        | some sk1 =>
          simp only [hf] at h
          cases hw : snd_cwnd_target sk1 with
          | none => simp [hw] at h
          | some w =>
            simp only [hw] at h
            obtain ⟨ht, _⟩ := cong_avoid_forced_frame sk sk1 hf
            obtain ⟨hcl, hcw⟩ := cong_avoid_ai_cwnd sk1 sk' w h
            rw [ht] at hcl hcw
            refine ⟨hcl, ?_, ?_⟩
            · intro hle
              rcases hcw with hcw | ⟨h1, _, h2⟩
              · omega
              · rw [h2, hcl]
                exact le_trans (Nat.mod_le _ _) h1
            · intro _ _ _
              rcases hcw with hcw | ⟨h1, _, h2⟩
              · exact Or.inl hcw
              · exact Or.inr ⟨h1, h2⟩
    · have hl2 : sk.tp.tcp_is_cwnd_limited = false := by simpa using hlim
      simp only [hmpc, hl2, Bool.not_true, Bool.false_eq_true, if_false, Bool.not_false,
        if_true, Option.some.injEq] at h
      subst h
      exact ⟨rfl, id, fun _ _ _ => Or.inl rfl⟩
  · have hmpc : sk.mpc = false := by simpa using hmpc
    simp only [hmpc, Bool.not_false, if_true, Option.some.injEq] at h
    subst h
    refine ⟨(tcp_reno_cong_avoid_clamp_eq sk.tp acked), ?_, ?_⟩
    · intro hle
      exact (tcp_reno_cong_avoid_clamp sk.tp acked hle).1
    · intro hc
      simp [hmpc] at hc

/-- C6: starting from `cwnd <= cwnd_clamp`, after any finite sequence of
`mptcp_ccc_cong_avoid` calls (arbitrary acked counts, window-limited flags,
alpha and established counts; any prefix of a sequence is itself a sequence)
the window is still at most the clamp, which never changes; the host's slow
start and single-path steps are the standard ones.  In the congestion-avoidance
branch a call changes `cwnd` only by adding one, and only when
`cwnd < cwnd_clamp`. -/
theorem cong_avoid_cwnd_le_clamp (sk : sock) (h : sk.tp.snd_cwnd ≤ sk.tp.snd_cwnd_clamp) :
    (∀ evs sk', on_ack_seq sk evs = some sk' →
      sk'.tp.snd_cwnd ≤ sk'.tp.snd_cwnd_clamp ∧
      sk'.tp.snd_cwnd_clamp = sk.tp.snd_cwnd_clamp) ∧
    (∀ ack acked sk', sk.mpc = true → sk.tp.tcp_is_cwnd_limited = true →
      sk.tp.snd_ssthresh < sk.tp.snd_cwnd →
      mptcp_ccc_cong_avoid sk ack acked = some sk' →
      sk'.tp.snd_cwnd = sk.tp.snd_cwnd ∨
        (sk.tp.snd_cwnd < sk.tp.snd_cwnd_clamp ∧
          sk'.tp.snd_cwnd = (sk.tp.snd_cwnd + 1) % 2 ^ 32)) := by
  constructor
  · intro evs
    induction evs generalizing sk with
    | nil =>
      intro sk' hs
      simp only [on_ack_seq, Option.some.injEq] at hs
      subst hs
      exact ⟨h, rfl⟩
    | cons e rest ih =>
      intro sk' hs
      unfold on_ack_seq at hs
      cases hc : mptcp_ccc_cong_avoid (e.apply sk) e.ack e.acked with
      | none => simp [hc] at hs
      | some sk1 =>
        simp only [hc] at hs
        obtain ⟨h1, h2, _⟩ := cong_avoid_step (e.apply sk) sk1 e.ack e.acked hc
        have h3 : sk1.tp.snd_cwnd ≤ sk1.tp.snd_cwnd_clamp := h2 h
        obtain ⟨h4, h5⟩ := ih sk1 h3 sk' hs
        exact ⟨h4, by rw [h5, h1]; rfl⟩
  · intro ack acked sk' hm hl hca hs
    exact (cong_avoid_step sk sk' ack acked hs).2.2 hm hl hca

theorem cong_avoid_cwnd_le_clamp_witness :
    ex_near_clamp.tp.snd_cwnd ≤ ex_near_clamp.tp.snd_cwnd_clamp ∧
    ((∀ evs sk', on_ack_seq ex_near_clamp evs = some sk' →
      sk'.tp.snd_cwnd ≤ sk'.tp.snd_cwnd_clamp ∧
      sk'.tp.snd_cwnd_clamp = ex_near_clamp.tp.snd_cwnd_clamp) ∧
    (∀ ack acked sk', ex_near_clamp.mpc = true → ex_near_clamp.tp.tcp_is_cwnd_limited = true →
      ex_near_clamp.tp.snd_ssthresh < ex_near_clamp.tp.snd_cwnd →
      mptcp_ccc_cong_avoid ex_near_clamp ack acked = some sk' →
      sk'.tp.snd_cwnd = ex_near_clamp.tp.snd_cwnd ∨
        (ex_near_clamp.tp.snd_cwnd < ex_near_clamp.tp.snd_cwnd_clamp ∧
          sk'.tp.snd_cwnd = (ex_near_clamp.tp.snd_cwnd + 1) % 2 ^ 32))) ∧
    (on_ack_seq ex_near_clamp ex_events).map
      (fun s => (s.tp.snd_cwnd, s.tp.snd_cwnd_cnt, s.tp.snd_cwnd_clamp)) = some (11, 1, 11) :=
  ⟨by decide, cong_avoid_cwnd_le_clamp ex_near_clamp (by decide), by decide⟩

theorem mptcp_ccc_scale_one : mptcp_ccc_scale 1 alpha_scale = 2 ^ 12 := by
  decide

/-- The target of lines 224-244 for an attached control block with more than
one established subflow, in terms of the 32-bit divisor actually used; the
division faults when that divisor is zero. -/
theorem snd_cwnd_target_eq (sk : sock) (mpcb : mptcp_cb)
    (hm : sk.mpcb = some mpcb) (hc : 1 < mpcb.cnt_established) :
    snd_cwnd_target sk =
      if alpha_divisor sk.meta_ca.alpha = 0 then none
      else some (max (2 ^ 12 / alpha_divisor sk.meta_ca.alpha) sk.tp.snd_cwnd) := by
  unfold snd_cwnd_target div_u64 mptcp_get_alpha
  simp only [hm, gt_iff_lt, hc, if_true, mptcp_ccc_scale_one]
  show (match (if alpha_divisor sk.meta_ca.alpha = 0 then none
      else some (2 ^ 12 / alpha_divisor sk.meta_ca.alpha)) with
    | none => none
    | some q => some (if q % 2 ^ 32 < sk.tp.snd_cwnd then sk.tp.snd_cwnd else q % 2 ^ 32)) = _
  generalize alpha_divisor sk.meta_ca.alpha = d
  by_cases hd : d = 0
  · simp [hd]
  · have hq : 2 ^ 12 / d % 2 ^ 32 = 2 ^ 12 / d :=
      Nat.mod_eq_of_lt (lt_of_le_of_lt (Nat.div_le_self _ _) (by norm_num))
    simp only [hd, if_false, hq, Option.some.injEq]
    by_cases hlt : 2 ^ 12 / d < sk.tp.snd_cwnd
    · rw [if_pos hlt]; exact (max_eq_right (le_of_lt hlt)).symm
    · rw [if_neg hlt]; exact (max_eq_left (not_lt.mp hlt)).symm

theorem alpha_divisor_of_lt (alpha : Nat) (h : alpha < 2 ^ 32) :
    alpha_divisor alpha = (if alpha = 0 then 1 else alpha) ∧ alpha_divisor alpha ≠ 0 := by
  unfold alpha_divisor
  by_cases h0 : alpha = 0
  · subst h0; decide
  · rw [if_neg h0, Nat.mod_eq_of_lt h]
    exact ⟨rfl, h0⟩

/-- C7, the code at two failing inputs (two established subflows, multipath,
window-limited, `cwnd = 10 > ssthresh`).  The non-zero `alpha = 2^32 + 1` passes
the zero guard of line 231 and is then cut to the 32-bit divisor 1: the target
is 4096, whereas `max(floor(2^12 / alpha), cwnd)` is 10, so a counter of 10 is
only counted up instead of growing the window.  The non-zero `alpha = 2^32`
passes the same guard and is cut to the divisor 0: the division of line 234
faults and the call does not complete. -/
theorem snd_cwnd_target_truncation_fault :
    (ex_cong_avoid 2 (2 ^ 32 + 1) 10 false true).mpc = true ∧
    (ex_cong_avoid 2 (2 ^ 32 + 1) 10 false true).tp.tcp_is_cwnd_limited = true ∧
    (ex_cong_avoid 2 (2 ^ 32 + 1) 10 false true).tp.snd_ssthresh
      < (ex_cong_avoid 2 (2 ^ 32 + 1) 10 false true).tp.snd_cwnd ∧
    (ex_cong_avoid 2 (2 ^ 32 + 1) 10 false true).tp.snd_cwnd = 10 ∧
    (ex_cong_avoid 2 (2 ^ 32 + 1) 10 false true).meta_ca.alpha < 2 ^ 64 ∧
    spec_target 2 (2 ^ 32 + 1) 10 = 10 ∧
    snd_cwnd_target (ex_cong_avoid 2 (2 ^ 32 + 1) 10 false true) = some 4096 ∧
    (mptcp_ccc_cong_avoid (ex_cong_avoid 2 (2 ^ 32 + 1) 10 false true) 0 1).map
      (fun s => (s.tp.snd_cwnd_cnt, s.tp.snd_cwnd)) = some (11, 10) ∧
    (ex_cong_avoid 2 (2 ^ 32) 10 false true).meta_ca.alpha ≠ 0 ∧
    spec_target 2 (2 ^ 32) 10 = 10 ∧
    snd_cwnd_target (ex_cong_avoid 2 (2 ^ 32) 10 false true) = none ∧
    mptcp_ccc_cong_avoid (ex_cong_avoid 2 (2 ^ 32) 10 false true) 0 1 = none := by
  decide

/-- What lines 224-244 compute for an attached control block.  Every target
they produce is at least the subflow's current `cwnd`.  With
`cnt_established <= 1` the target is `cwnd`.  With alpha below `2^32` (zero
included, which is replaced by 1) the target is the specified
`max(floor(2^12 / a), cwnd)`.  For a larger alpha the divisor that reaches
`div_u64` is only the low 32 bits of alpha, and the result is
`max(floor(2^12 / (a mod 2^32)), cwnd)` when these are non-zero. -/
theorem snd_cwnd_target_floor (sk : sock) (mpcb : mptcp_cb) (hm : sk.mpcb = some mpcb) :
    (∀ w, snd_cwnd_target sk = some w → sk.tp.snd_cwnd ≤ w) ∧
    (mpcb.cnt_established ≤ 1 → snd_cwnd_target sk = some sk.tp.snd_cwnd) ∧
    (sk.meta_ca.alpha < 2 ^ 32 →
      snd_cwnd_target sk
        = some (spec_target mpcb.cnt_established sk.meta_ca.alpha sk.tp.snd_cwnd)) ∧
    (1 < mpcb.cnt_established → alpha_divisor sk.meta_ca.alpha ≠ 0 →
      snd_cwnd_target sk
        = some (max (2 ^ 12 / alpha_divisor sk.meta_ca.alpha) sk.tp.snd_cwnd)) := by
  have hsingle : mpcb.cnt_established ≤ 1 → snd_cwnd_target sk = some sk.tp.snd_cwnd := by
    intro hc
    unfold snd_cwnd_target
    simp only [hm, gt_iff_lt, not_lt.mpr hc, if_false]
  refine ⟨?_, hsingle, ?_, ?_⟩
  · intro w hw
    by_cases hc : 1 < mpcb.cnt_established
    · rw [snd_cwnd_target_eq sk mpcb hm hc] at hw
      by_cases ha : alpha_divisor sk.meta_ca.alpha = 0
      · simp [ha] at hw
      · simp only [ha, if_false, Option.some.injEq] at hw
        rw [← hw]
        exact le_max_right _ _
    · rw [hsingle (not_lt.mp hc)] at hw
      simp only [Option.some.injEq] at hw
      omega
  · intro ha
    obtain ⟨h1, h2⟩ := alpha_divisor_of_lt _ ha
    by_cases hc : 1 < mpcb.cnt_established
    · rw [snd_cwnd_target_eq sk mpcb hm hc, if_neg h2, h1]
      simp [spec_target, hc]
    · rw [hsingle (not_lt.mp hc)]
      simp [spec_target, hc]
  · intro hc ha
    rw [snd_cwnd_target_eq sk mpcb hm hc, if_neg ha]

theorem snd_cwnd_target_floor_witness :
    ((∀ w, snd_cwnd_target (ex_cong_avoid 2 0 0 false true) = some w →
        (ex_cong_avoid 2 0 0 false true).tp.snd_cwnd ≤ w) ∧
      ((2 : Nat) ≤ 1 → snd_cwnd_target (ex_cong_avoid 2 0 0 false true)
        = some (ex_cong_avoid 2 0 0 false true).tp.snd_cwnd) ∧
      ((ex_cong_avoid 2 0 0 false true).meta_ca.alpha < 2 ^ 32 →
        snd_cwnd_target (ex_cong_avoid 2 0 0 false true)
          = some (spec_target 2 (ex_cong_avoid 2 0 0 false true).meta_ca.alpha
              (ex_cong_avoid 2 0 0 false true).tp.snd_cwnd)) ∧
      ((1 : Nat) < 2 → alpha_divisor (ex_cong_avoid 2 0 0 false true).meta_ca.alpha ≠ 0 →
        snd_cwnd_target (ex_cong_avoid 2 0 0 false true)
          = some (max (2 ^ 12 / alpha_divisor (ex_cong_avoid 2 0 0 false true).meta_ca.alpha)
              (ex_cong_avoid 2 0 0 false true).tp.snd_cwnd))) ∧
    snd_cwnd_target (ex_cong_avoid 2 0 0 false true) = some 4096 ∧
    snd_cwnd_target (ex_cong_avoid 2 8192 0 false true) = some 10 ∧
    snd_cwnd_target (ex_cong_avoid 1 7 0 false true) = some 10 :=
  ⟨snd_cwnd_target_floor (ex_cong_avoid 2 0 0 false true) ⟨2, [], [ex_tp2]⟩ rfl,
   by decide, by decide, by decide⟩

/-- In the congestion-avoidance branch the hook is the composition of the
forced update, the target computation and the window step. -/
theorem cong_avoid_ca_eq (sk : sock) (ack acked : Nat)
    (hm : sk.mpc = true) (hl : sk.tp.tcp_is_cwnd_limited = true)
    (hca : sk.tp.snd_ssthresh < sk.tp.snd_cwnd) :
    mptcp_ccc_cong_avoid sk ack acked =
      (cong_avoid_forced sk).bind
        (fun sk1 => (snd_cwnd_target sk1).bind (fun w => cong_avoid_ai sk1 w)) := by
  unfold mptcp_ccc_cong_avoid
  simp only [hm, hl, Bool.not_true, Bool.false_eq_true, if_false, not_le.mpr hca]
  cases cong_avoid_forced sk with
  | none => rfl
  | some sk1 =>
    simp only [Option.some_bind]
    cases snd_cwnd_target sk1 <;> rfl

theorem snd_cwnd_target_lt (sk : sock) (w : Nat) (h : snd_cwnd_target sk = some w)
    (hcw : sk.tp.snd_cwnd < 2 ^ 32) : w < 2 ^ 32 := by
  cases hm : sk.mpcb with
  | none => simp [snd_cwnd_target, hm] at h
  | some mpcb =>
    by_cases hc : 1 < mpcb.cnt_established
    · rw [snd_cwnd_target_eq sk mpcb hm hc] at h
      by_cases ha : alpha_divisor sk.meta_ca.alpha = 0
      · simp [ha] at h
      · simp only [ha, if_false, Option.some.injEq] at h
        rw [← h]
        exact max_lt (lt_of_le_of_lt (Nat.div_le_self _ _) (by norm_num)) hcw
    · unfold snd_cwnd_target at h
      simp only [hm, gt_iff_lt, hc, if_false, Option.some.injEq] at h
      omega

/-- The window step of lines 247-256 on a subflow with in-range fields. -/
theorem cong_avoid_ai_spec (sk sk' : sock) (w : Nat) (hwf : sk.tp.wf) (hw : w < 2 ^ 32)
    (h : cong_avoid_ai sk w = some sk') :
    (w ≤ sk.tp.snd_cwnd_cnt →
      sk'.tp.snd_cwnd_cnt = 0 ∧
      sk'.tp.snd_cwnd
        = if sk.tp.snd_cwnd < sk.tp.snd_cwnd_clamp then sk.tp.snd_cwnd + 1 else sk.tp.snd_cwnd) ∧
    (sk.tp.snd_cwnd_cnt < w →
      sk'.tp.snd_cwnd_cnt = sk.tp.snd_cwnd_cnt + 1 ∧ sk'.tp.snd_cwnd = sk.tp.snd_cwnd) := by
  obtain ⟨h1, -, -, h4, -⟩ := hwf
  unfold cong_avoid_ai at h
  by_cases hge : sk.tp.snd_cwnd_cnt ≥ w
  · refine ⟨fun _ => ?_, fun hlt => absurd hge (by omega)⟩
    by_cases hcl : sk.tp.snd_cwnd < sk.tp.snd_cwnd_clamp
    · rw [if_pos hge, if_pos hcl] at h
      generalize hr : mptcp_ccc_recalc_alpha _ = r at h
      cases r with
      | none => simp at h
      | some sk1 =>
        simp only [Option.some.injEq] at h
        subst h
        obtain ⟨ht, _⟩ := recalc_frame _ sk1 hr
        refine ⟨rfl, ?_⟩
        show sk1.tp.snd_cwnd = _
        rw [ht, if_pos hcl]
        show (sk.tp.snd_cwnd + 1) % 2 ^ 32 = _
        exact Nat.mod_eq_of_lt (by omega)
    · rw [if_pos hge, if_neg hcl] at h
      simp only [Option.some.injEq] at h
      subst h
      exact ⟨rfl, by rw [if_neg hcl]⟩
  · refine ⟨fun hle => absurd hle (by omega), fun _ => ?_⟩
    rw [if_neg hge] at h
    simp only [Option.some.injEq] at h
    subst h
    refine ⟨?_, rfl⟩
    show (sk.tp.snd_cwnd_cnt + 1) % 2 ^ 32 = _
    exact Nat.mod_eq_of_lt (by omega)

/-- C8 as stated fails.  With counter 0, target 4096 and three packets
acknowledged the counter becomes 1, not 3; with counter 9, target 10 and one
packet acknowledged the counter becomes 10 and the window stays at 10, although
the increased counter reaches the target. -/
theorem cong_avoid_counter_counterexample :
    (ex_cong_avoid 2 1 0 false true).tp.snd_ssthresh < (ex_cong_avoid 2 1 0 false true).tp.snd_cwnd ∧
    snd_cwnd_target (ex_cong_avoid 2 1 0 false true) = some 4096 ∧
    (mptcp_ccc_cong_avoid (ex_cong_avoid 2 1 0 false true) 0 3).map
      (fun s => (s.tp.snd_cwnd_cnt, s.tp.snd_cwnd)) = some (1, 10) ∧
    snd_cwnd_target (ex_cong_avoid 1 1 9 false true) = some 10 ∧
    (mptcp_ccc_cong_avoid (ex_cong_avoid 1 1 9 false true) 0 1).map
      (fun s => (s.tp.snd_cwnd_cnt, s.tp.snd_cwnd)) = some (10, 10) := by
  decide

/-- C8 amended: in the congestion-avoidance branch (multipath, window-limited,
`cwnd > ssthresh`) the growth counter is compared with the target before it is
changed.  If it has reached the target, `cwnd` is incremented by one (subject to
`cwnd_clamp`) and the counter becomes 0; otherwise the counter after the call is
the counter before the call plus one, whatever the acked count `n`, which the
branch does not look at. -/
theorem cong_avoid_counter (sk : sock) (ack acked : Nat)
    (hm : sk.mpc = true) (hl : sk.tp.tcp_is_cwnd_limited = true)
    (hca : sk.tp.snd_ssthresh < sk.tp.snd_cwnd) (hwf : sk.tp.wf) :
    ∀ sk', mptcp_ccc_cong_avoid sk ack acked = some sk' →
      (∃ sk1 w, cong_avoid_forced sk = some sk1 ∧ snd_cwnd_target sk1 = some w ∧
        (w ≤ sk.tp.snd_cwnd_cnt →
          sk'.tp.snd_cwnd_cnt = 0 ∧
          sk'.tp.snd_cwnd
            = if sk.tp.snd_cwnd < sk.tp.snd_cwnd_clamp then sk.tp.snd_cwnd + 1
              else sk.tp.snd_cwnd) ∧
        (sk.tp.snd_cwnd_cnt < w →
          sk'.tp.snd_cwnd_cnt = sk.tp.snd_cwnd_cnt + 1 ∧ sk'.tp.snd_cwnd = sk.tp.snd_cwnd)) ∧
      (∀ n, mptcp_ccc_cong_avoid sk ack n = some sk') := by
  intro sk' h
  constructor
  · rw [cong_avoid_ca_eq sk ack acked hm hl hca] at h
    cases hf : cong_avoid_forced sk with
    | none => simp [hf] at h
    | some sk1 =>
      cases hw : snd_cwnd_target sk1 with
      | none => simp [hf, hw] at h
      | some w =>
        simp only [hf, hw, Option.some_bind] at h
        obtain ⟨ht, _⟩ := cong_avoid_forced_frame sk sk1 hf
        have hwf1 : sk1.tp.wf := by rw [ht]; exact hwf
        have hlt := snd_cwnd_target_lt sk1 w hw hwf1.1
        have := cong_avoid_ai_spec sk1 sk' w hwf1 hlt h
        rw [ht] at this
        exact ⟨sk1, w, rfl, hw, this⟩
  · intro n
    rw [cong_avoid_ca_eq sk ack n hm hl hca, ← cong_avoid_ca_eq sk ack acked hm hl hca]
    exact h

theorem cong_avoid_counter_witness :
    (∀ sk', mptcp_ccc_cong_avoid (ex_cong_avoid 2 1 30 true true) 0 7 = some sk' →
      (∃ sk1 w, cong_avoid_forced (ex_cong_avoid 2 1 30 true true) = some sk1 ∧
        snd_cwnd_target sk1 = some w ∧
        (w ≤ (ex_cong_avoid 2 1 30 true true).tp.snd_cwnd_cnt →
          sk'.tp.snd_cwnd_cnt = 0 ∧
          sk'.tp.snd_cwnd
            = if (ex_cong_avoid 2 1 30 true true).tp.snd_cwnd
                  < (ex_cong_avoid 2 1 30 true true).tp.snd_cwnd_clamp
              then (ex_cong_avoid 2 1 30 true true).tp.snd_cwnd + 1
              else (ex_cong_avoid 2 1 30 true true).tp.snd_cwnd) ∧
        ((ex_cong_avoid 2 1 30 true true).tp.snd_cwnd_cnt < w →
          sk'.tp.snd_cwnd_cnt = (ex_cong_avoid 2 1 30 true true).tp.snd_cwnd_cnt + 1 ∧
          sk'.tp.snd_cwnd = (ex_cong_avoid 2 1 30 true true).tp.snd_cwnd)) ∧
      (∀ n, mptcp_ccc_cong_avoid (ex_cong_avoid 2 1 30 true true) 0 n = some sk')) ∧
    (mptcp_ccc_cong_avoid (ex_cong_avoid 2 1 30 true true) 0 7).map
      (fun s => (s.tp.snd_cwnd_cnt, s.tp.snd_cwnd)) = some (0, 11) ∧
    (mptcp_ccc_cong_avoid (ex_cong_avoid 2 1 3 true true) 0 7).map
      (fun s => (s.tp.snd_cwnd_cnt, s.tp.snd_cwnd)) = some (4, 10) :=
  ⟨cong_avoid_counter (ex_cong_avoid 2 1 30 true true) 0 7 rfl rfl (by decide) (by decide),
   by decide, by decide⟩

/-- C9: for a multipath, window-limited subflow in slow start
(`cwnd <= ssthresh`) a call with `acked = n` is the host's slow start followed
by one recomputation on the grown state, so the stored alpha is the one the
recomputation yields after the growth.  The window grows by exactly `n` when
`cwnd + n` stays within `ssthresh` and `cwnd_clamp`; the growth counter and
`forced_update` are left untouched. -/
theorem cong_avoid_slow_start (sk : sock) (ack n : Nat)
    (hm : sk.mpc = true) (hl : sk.tp.tcp_is_cwnd_limited = true)
    (hss : sk.tp.snd_cwnd ≤ sk.tp.snd_ssthresh) :
    mptcp_ccc_cong_avoid sk ack n
      = mptcp_ccc_recalc_alpha { sk with tp := tcp_slow_start sk.tp n } ∧
    (sk.tp.snd_ssthresh < 2 ^ 32 → sk.tp.snd_cwnd + n ≤ sk.tp.snd_ssthresh →
      sk.tp.snd_cwnd + n ≤ sk.tp.snd_cwnd_clamp →
      (tcp_slow_start sk.tp n).snd_cwnd = sk.tp.snd_cwnd + n) ∧
    (∀ sk', mptcp_ccc_cong_avoid sk ack n = some sk' →
      sk'.tp = tcp_slow_start sk.tp n ∧
      sk'.tp.snd_cwnd_cnt = sk.tp.snd_cwnd_cnt ∧
      sk'.meta_ca.forced_update = sk.meta_ca.forced_update ∧
      sk'.recalc_calls = sk.recalc_calls + 1) := by
  have heq : mptcp_ccc_cong_avoid sk ack n
      = mptcp_ccc_recalc_alpha { sk with tp := tcp_slow_start sk.tp n } := by
    unfold mptcp_ccc_cong_avoid
    simp only [hm, hl, hss, Bool.not_true, Bool.false_eq_true, if_false, if_true]
  refine ⟨heq, ?_, ?_⟩
  · intro ht h1 h2
    unfold tcp_slow_start
    have h3 : (sk.tp.snd_cwnd + n) % 2 ^ 32 = sk.tp.snd_cwnd + n :=
      Nat.mod_eq_of_lt (by omega)
    simp only [h3, gt_iff_lt, not_lt.mpr h1, if_false]
    exact min_eq_left h2
  · intro sk' h
    rw [heq] at h
    obtain ⟨h1, _, _, h4, h5⟩ := recalc_frame _ sk' h
    refine ⟨h1, ?_, h4, h5⟩
    rw [h1]
    exact (tcp_slow_start_frame sk.tp n).2.2

/-- Scenario C: `cwnd = 2`, `ssthresh = 20`, three acknowledgments of one
packet each give `cwnd = 5`; alpha is recomputed after each of them (192, 202,
204), the counter stays 0 and `forced_update` stays set. -/
theorem cong_avoid_slow_start_witness :
    (mptcp_ccc_cong_avoid ex_slow_start 0 1
      = mptcp_ccc_recalc_alpha { ex_slow_start with tp := tcp_slow_start ex_slow_start.tp 1 } ∧
    (ex_slow_start.tp.snd_ssthresh < 2 ^ 32 →
      ex_slow_start.tp.snd_cwnd + 1 ≤ ex_slow_start.tp.snd_ssthresh →
      ex_slow_start.tp.snd_cwnd + 1 ≤ ex_slow_start.tp.snd_cwnd_clamp →
      (tcp_slow_start ex_slow_start.tp 1).snd_cwnd = ex_slow_start.tp.snd_cwnd + 1) ∧
    (∀ sk', mptcp_ccc_cong_avoid ex_slow_start 0 1 = some sk' →
      sk'.tp = tcp_slow_start ex_slow_start.tp 1 ∧
      sk'.tp.snd_cwnd_cnt = ex_slow_start.tp.snd_cwnd_cnt ∧
      sk'.meta_ca.forced_update = ex_slow_start.meta_ca.forced_update ∧
      sk'.recalc_calls = ex_slow_start.recalc_calls + 1)) ∧
    (mptcp_ccc_cong_avoid ex_slow_start 0 1).map
      (fun s => (s.tp.snd_cwnd, s.tp.snd_cwnd_cnt, s.meta_ca.alpha, s.meta_ca.forced_update,
        s.recalc_calls)) = some (3, 0, 192, true, 1) ∧
    ((mptcp_ccc_cong_avoid ex_slow_start 0 1).bind
      (fun s => mptcp_ccc_cong_avoid s 0 1)).map
      (fun s => (s.tp.snd_cwnd, s.tp.snd_cwnd_cnt, s.meta_ca.alpha, s.meta_ca.forced_update,
        s.recalc_calls)) = some (4, 0, 202, true, 2) ∧
    (((mptcp_ccc_cong_avoid ex_slow_start 0 1).bind
      (fun s => mptcp_ccc_cong_avoid s 0 1)).bind
      (fun s => mptcp_ccc_cong_avoid s 0 1)).map
      (fun s => (s.tp.snd_cwnd, s.tp.snd_cwnd_cnt, s.meta_ca.alpha, s.meta_ca.forced_update,
        s.recalc_calls)) = some (5, 0, 204, true, 3) :=
  ⟨cong_avoid_slow_start ex_slow_start 0 1 rfl rfl (by decide), by decide, by decide, by decide⟩

/-- C10 as stated fails.  With `forced_update` set, a full counter and room
below the clamp, one call in congestion avoidance runs the recomputation twice;
when the subflow is not window-limited the call runs it not at all and leaves
`forced_update` set. -/
theorem cong_avoid_forced_update_counterexample :
    (ex_cong_avoid 2 1 30 true true).tp.snd_ssthresh
      < (ex_cong_avoid 2 1 30 true true).tp.snd_cwnd ∧
    (ex_cong_avoid 2 1 30 true true).meta_ca.forced_update = true ∧
    (ex_cong_avoid 2 1 30 true true).recalc_calls = 0 ∧
    (mptcp_ccc_cong_avoid (ex_cong_avoid 2 1 30 true true) 0 1).map
      (fun s => (s.recalc_calls, s.meta_ca.forced_update)) = some (2, false) ∧
    (ex_cong_avoid 2 1 30 true false).recalc_calls = 0 ∧
    (mptcp_ccc_cong_avoid (ex_cong_avoid 2 1 30 true false) 0 1).map
      (fun s => (s.recalc_calls, s.meta_ca.forced_update)) = some (0, true) := by
  decide

/-- C10 amended: for a multipath, window-limited subflow in congestion
avoidance (`cwnd > ssthresh`) whose connection has `forced_update` set, a call
that completes has run the recomputation once for the forced update, and once
more exactly when that call also increments `cwnd` (counter at or above the
target and `cwnd < cwnd_clamp`); it leaves `forced_update` cleared.  When the
subflow is not window-limited the call changes nothing. -/
theorem cong_avoid_forced_update (sk : sock) (ack acked : Nat)
    (hm : sk.mpc = true) (hca : sk.tp.snd_ssthresh < sk.tp.snd_cwnd)
    (hf : sk.meta_ca.forced_update = true) :
    (sk.tp.tcp_is_cwnd_limited = true →
      ∀ sk', mptcp_ccc_cong_avoid sk ack acked = some sk' →
        sk'.meta_ca.forced_update = false ∧
        ∃ sk1 w, mptcp_ccc_recalc_alpha sk = some sk1 ∧
          snd_cwnd_target (mptcp_set_forced sk1 false) = some w ∧
          sk'.recalc_calls = sk.recalc_calls +
            (if w ≤ sk.tp.snd_cwnd_cnt ∧ sk.tp.snd_cwnd < sk.tp.snd_cwnd_clamp then 2 else 1)) ∧
    (sk.tp.tcp_is_cwnd_limited = false → mptcp_ccc_cong_avoid sk ack acked = some sk) := by
  constructor
  · intro hl sk' h
    rw [cong_avoid_ca_eq sk ack acked hm hl hca] at h
    unfold cong_avoid_forced mptcp_get_forced at h
    rw [if_pos hf] at h
    cases hr : mptcp_ccc_recalc_alpha sk with
    | none => simp [hr] at h
    | some sk1 =>
      obtain ⟨ht, _, _, hfo, hcalls⟩ := recalc_frame sk sk1 hr
      cases hw : snd_cwnd_target (mptcp_set_forced sk1 false) with
      | none => simp [hr, hw] at h
      | some w =>
        simp only [hr, hw, Option.some_bind] at h
        have key : sk'.meta_ca.forced_update = false ∧
            sk'.recalc_calls = sk1.recalc_calls +
              (if w ≤ sk1.tp.snd_cwnd_cnt ∧ sk1.tp.snd_cwnd < sk1.tp.snd_cwnd_clamp
                then 1 else 0) := by
          unfold cong_avoid_ai at h
          by_cases hge : (mptcp_set_forced sk1 false).tp.snd_cwnd_cnt ≥ w
          · by_cases hcl : (mptcp_set_forced sk1 false).tp.snd_cwnd
                < (mptcp_set_forced sk1 false).tp.snd_cwnd_clamp
            · rw [if_pos hge, if_pos hcl] at h
              generalize hr2 : mptcp_ccc_recalc_alpha _ = r at h
              cases r with
              | none => simp at h
              | some sk2 =>
                simp only [Option.some.injEq] at h
                subst h
                obtain ⟨_, _, _, hfo2, hcalls2⟩ := recalc_frame _ sk2 hr2
                refine ⟨hfo2, ?_⟩
                have h1 : w ≤ sk1.tp.snd_cwnd_cnt ∧ sk1.tp.snd_cwnd < sk1.tp.snd_cwnd_clamp :=
                  ⟨hge, hcl⟩
                rw [if_pos h1]
                exact hcalls2
            · rw [if_pos hge, if_neg hcl] at h
              simp only [Option.some.injEq] at h
              subst h
              have h1 : ¬ (w ≤ sk1.tp.snd_cwnd_cnt ∧ sk1.tp.snd_cwnd < sk1.tp.snd_cwnd_clamp) :=
                fun hh => hcl hh.2
              rw [if_neg h1]
              exact ⟨rfl, rfl⟩
          · rw [if_neg hge] at h
            simp only [Option.some.injEq] at h
            subst h
            have h1 : ¬ (w ≤ sk1.tp.snd_cwnd_cnt ∧ sk1.tp.snd_cwnd < sk1.tp.snd_cwnd_clamp) :=
              fun hh => hge hh.1
            rw [if_neg h1]
            exact ⟨rfl, rfl⟩
        refine ⟨key.1, sk1, w, rfl, hw, ?_⟩
        rw [key.2, hcalls, ht]
        split_ifs <;> rfl
  · intro hl
    unfold mptcp_ccc_cong_avoid
    simp only [hm, hl, Bool.not_true, Bool.false_eq_true, if_false, Bool.not_false, if_true]

theorem cong_avoid_forced_update_witness :
    ((ex_cong_avoid 2 1 3 true true).tp.tcp_is_cwnd_limited = true →
      ∀ sk', mptcp_ccc_cong_avoid (ex_cong_avoid 2 1 3 true true) 0 1 = some sk' →
        sk'.meta_ca.forced_update = false ∧
        ∃ sk1 w, mptcp_ccc_recalc_alpha (ex_cong_avoid 2 1 3 true true) = some sk1 ∧
          snd_cwnd_target (mptcp_set_forced sk1 false) = some w ∧
          sk'.recalc_calls = (ex_cong_avoid 2 1 3 true true).recalc_calls +
            (if w ≤ (ex_cong_avoid 2 1 3 true true).tp.snd_cwnd_cnt ∧
                (ex_cong_avoid 2 1 3 true true).tp.snd_cwnd
                  < (ex_cong_avoid 2 1 3 true true).tp.snd_cwnd_clamp then 2 else 1)) ∧
    (mptcp_ccc_cong_avoid (ex_cong_avoid 2 1 3 true true) 0 1).map
      (fun s => (s.recalc_calls, s.meta_ca.forced_update, s.meta_ca.alpha))
        = some (1, false, 182) :=
  ⟨(cong_avoid_forced_update (ex_cong_avoid 2 1 3 true true) 0 1 rfl (by decide) rfl).1,
   by decide⟩

/-! ## Scenario A and the zero denominator -/

theorem scenario_a_scan (t1 t2 : tcp_sock)
    (h1 : t1.snd_cwnd = 10 ∧ t1.srtt_us = 100 ∧ t1.mptcp_sk_can_send = true)
    (h2 : t2.snd_cwnd = 10 ∧ t2.srtt_us = 200 ∧ t2.mptcp_sk_can_send = true) :
    find_max_numerator [t1, t2] alpha_scan.init
      = { max_numerator := 4294967, best_cwnd := 10, best_rtt := 100, can_send := 2 } := by
  obtain ⟨a1, b1, c1⟩ := h1
  obtain ⟨a2, b2, c2⟩ := h2
  simp [find_max_numerator, numerator_candidate, mptcp_ccc_sk_can_send, mptcp_ccc_scale,
    alpha_scale_num, alpha_scan.init, a1, b1, c1, a2, b2, c2]

theorem scenario_a_denominator (t1 t2 : tcp_sock)
    (h1 : t1.snd_cwnd = 10 ∧ t1.srtt_us = 100 ∧ t1.mptcp_sk_can_send = true)
    (h2 : t2.snd_cwnd = 10 ∧ t2.srtt_us = 200 ∧ t2.mptcp_sk_can_send = true) :
    squared_denominator [t1, t2] = (10240 + 5120) ^ 2 := by
  unfold squared_denominator
  rw [scenario_a_scan t1 t2 h1 h2]
  obtain ⟨a1, b1, c1⟩ := h1
  obtain ⟨a2, b2, c2⟩ := h2
  simp [calc_sum_denominator, denominator_term, mptcp_ccc_sk_can_send, mptcp_ccc_scale,
    alpha_scale_den, int_to_u64, a1, b1, c1, a2, b2, c2]

/-- C11: Scenario A.  For a connection with `cnt_established = 2` whose
connection list is two send-eligible subflows `(cwnd, srtt) = (10, 100)` and
`(10, 200)`, in that order (whatever their other fields, the stored alpha and
the subflow the hook runs on), the recomputation selects the first as best path
(`best_cwnd = 10`, `best_rtt = 100`, its candidate being the larger), completes
and stores the non-zero alpha `182 = floor(10 * 2^32 / (10240 + 5120)^2)`. -/
theorem recalc_alpha_scenario_a (sk : sock) (mpcb : mptcp_cb) (t1 t2 : tcp_sock)
    (hm : sk.mpcb = some mpcb) (hc : mpcb.cnt_established = 2)
    (hl : mptcp_for_each_sk mpcb sk.tp = [t1, t2])
    (h1 : t1.snd_cwnd = 10 ∧ t1.srtt_us = 100 ∧ t1.mptcp_sk_can_send = true)
    (h2 : t2.snd_cwnd = 10 ∧ t2.srtt_us = 200 ∧ t2.mptcp_sk_can_send = true) :
    best_cwnd (mptcp_for_each_sk mpcb sk.tp) = 10 ∧
    best_rtt (mptcp_for_each_sk mpcb sk.tp) = 100 ∧
    numerator_candidate t2 < numerator_candidate t1 ∧
    squared_denominator (mptcp_for_each_sk mpcb sk.tp) = (10240 + 5120) ^ 2 ∧
    ∃ sk', mptcp_ccc_recalc_alpha sk = some sk' ∧
      sk'.meta_ca.alpha = 10 * 2 ^ 32 / (10240 + 5120) ^ 2 ∧
      sk'.meta_ca.alpha = 182 ∧ sk'.meta_ca.alpha ≠ 0 := by
  have hscan := scenario_a_scan t1 t2 h1 h2
  have hden := scenario_a_denominator t1 t2 h1 h2
  refine ⟨by rw [hl, best_cwnd, hscan], by rw [hl, best_rtt, hscan], ?_, by rw [hl, hden], ?_⟩
  · obtain ⟨a1, b1, _⟩ := h1
    obtain ⟨a2, b2, _⟩ := h2
    simp [numerator_candidate, mptcp_ccc_scale, alpha_scale_num, a1, b1, a2, b2]
  · refine ⟨mptcp_set_alpha sk.entered 182, ?_, by norm_num [mptcp_set_alpha], rfl, by
      simp [mptcp_set_alpha]⟩
    rw [recalc_eq]
    simp only [hm]
    have : lia_alpha mpcb sk.tp = some 182 := by
      unfold lia_alpha
      simp only [hl, hden, hscan]
      simp [hc, div64_u64, mptcp_ccc_scale, alpha_scale_num]
    rw [this]
    rfl

theorem recalc_alpha_scenario_a_witness :
    best_cwnd (mptcp_for_each_sk ⟨2, [], [ex_tp2]⟩ (ex_sock 2 0 true).tp) = 10 ∧
    best_rtt (mptcp_for_each_sk ⟨2, [], [ex_tp2]⟩ (ex_sock 2 0 true).tp) = 100 ∧
    numerator_candidate ex_tp2 < numerator_candidate ex_tp1 ∧
    squared_denominator (mptcp_for_each_sk ⟨2, [], [ex_tp2]⟩ (ex_sock 2 0 true).tp)
      = (10240 + 5120) ^ 2 ∧
    ∃ sk', mptcp_ccc_recalc_alpha (ex_sock 2 0 true) = some sk' ∧
      sk'.meta_ca.alpha = 10 * 2 ^ 32 / (10240 + 5120) ^ 2 ∧
      sk'.meta_ca.alpha = 182 ∧ sk'.meta_ca.alpha ≠ 0 :=
  recalc_alpha_scenario_a (ex_sock 2 0 true) ⟨2, [], [ex_tp2]⟩ ex_tp1 ex_tp2 rfl rfl rfl
    (by decide) (by decide)

/-- C12, the code at a failing input: two established subflows, the only
send-eligible one with `cwnd = 2^22`, so that the denominator sum is `2^32` and
its square is zero in 64-bit arithmetic; the division of line 151 then has a
zero divisor and the recomputation stores nothing.  The same happens when the
sum itself is zero because the best path has `cwnd = 0`. -/
theorem recalc_alpha_zero_denominator_fault :
    ex_wrap.mpcb = some ⟨2, [], [{ ex_tp2 with mptcp_sk_can_send := false }]⟩ ∧
    mptcp_ccc_sk_can_send ex_wrap.tp = true ∧
    ex_wrap.tp.wf ∧ ex_wrap.tp.snd_cwnd ≤ ex_wrap.tp.snd_cwnd_clamp ∧
    calc_sum_denominator
      (best_rtt (mptcp_for_each_sk ⟨2, [], [{ ex_tp2 with mptcp_sk_can_send := false }]⟩
        ex_wrap.tp))
      (mptcp_for_each_sk ⟨2, [], [{ ex_tp2 with mptcp_sk_can_send := false }]⟩ ex_wrap.tp) 0
      = 2 ^ 32 ∧
    squared_denominator
      (mptcp_for_each_sk ⟨2, [], [{ ex_tp2 with mptcp_sk_can_send := false }]⟩ ex_wrap.tp)
      = 0 ∧
    mptcp_ccc_recalc_alpha ex_wrap = none ∧
    squared_denominator
      (mptcp_for_each_sk ⟨2, [], [{ ex_tp2 with mptcp_sk_can_send := false }]⟩
        ex_zero_cwnd.tp) = 0 ∧
    mptcp_ccc_recalc_alpha ex_zero_cwnd = none := by
  decide

/-! ## The other hooks -/

/-- C13: `mptcp_ccc_init` on a subflow of a multipath connection leaves
`forced_update = false` and `alpha = 1` on the connection, whatever the state
before, and touches nothing else; on a subflow that is not part of a multipath
connection it changes nothing. -/
theorem init_resets_coupling (sk : sock) :
    (sk.mpc = true →
      (mptcp_ccc_init sk).meta_ca.forced_update = false ∧
      (mptcp_ccc_init sk).meta_ca.alpha = 1 ∧
      (mptcp_ccc_init sk).tp = sk.tp ∧ (mptcp_ccc_init sk).mpcb = sk.mpcb ∧
      (mptcp_ccc_init sk).mpc = sk.mpc) ∧
    (sk.mpc = false → mptcp_ccc_init sk = sk) := by
  unfold mptcp_ccc_init
  constructor
  · intro h
    rw [if_pos h]
    exact ⟨rfl, rfl, rfl, rfl, rfl⟩
  · intro h
    simp [h]

theorem init_resets_coupling_witness :
    (((ex_sock 2 77 true).mpc = true →
      (mptcp_ccc_init (ex_sock 2 77 true)).meta_ca.forced_update = false ∧
      (mptcp_ccc_init (ex_sock 2 77 true)).meta_ca.alpha = 1 ∧
      (mptcp_ccc_init (ex_sock 2 77 true)).tp = (ex_sock 2 77 true).tp ∧
      (mptcp_ccc_init (ex_sock 2 77 true)).mpcb = (ex_sock 2 77 true).mpcb ∧
      (mptcp_ccc_init (ex_sock 2 77 true)).mpc = (ex_sock 2 77 true).mpc) ∧
    ((ex_sock 2 77 true).mpc = false → mptcp_ccc_init (ex_sock 2 77 true) = ex_sock 2 77 true)) ∧
    (mptcp_ccc_init (ex_sock 2 77 true)).meta_ca = ⟨1, false⟩ ∧
    mptcp_ccc_init ex_plain = ex_plain ∧ ex_plain.meta_ca.alpha = 5 :=
  ⟨init_resets_coupling (ex_sock 2 77 true), by decide, by decide, by decide⟩

/-- C14: `mptcp_ccc_set_state` on a multipath subflow sets `forced_update` on
the connection, for every new state value, and leaves alpha and every subflow
field unchanged; on a subflow that is not multipath it changes nothing. -/
theorem set_state_forces_update (sk : sock) (ca_state : Nat) :
    (sk.mpc = true →
      (mptcp_ccc_set_state sk ca_state).meta_ca.forced_update = true ∧
      (mptcp_ccc_set_state sk ca_state).meta_ca.alpha = sk.meta_ca.alpha ∧
      (mptcp_ccc_set_state sk ca_state).tp = sk.tp ∧
      (mptcp_ccc_set_state sk ca_state).mpcb = sk.mpcb ∧
      (mptcp_ccc_set_state sk ca_state).mpc = sk.mpc ∧
      (mptcp_ccc_set_state sk ca_state).recalc_calls = sk.recalc_calls) ∧
    (sk.mpc = false → mptcp_ccc_set_state sk ca_state = sk) := by
  unfold mptcp_ccc_set_state
  constructor
  · intro h
    simp only [h, Bool.not_true, Bool.false_eq_true, if_false]
    exact ⟨rfl, rfl, rfl, rfl, h, rfl⟩
  · intro h
    simp [h]

theorem set_state_forces_update_witness :
    (((ex_sock 2 77 false).mpc = true →
      (mptcp_ccc_set_state (ex_sock 2 77 false) 4).meta_ca.forced_update = true ∧
      (mptcp_ccc_set_state (ex_sock 2 77 false) 4).meta_ca.alpha
        = (ex_sock 2 77 false).meta_ca.alpha ∧
      (mptcp_ccc_set_state (ex_sock 2 77 false) 4).tp = (ex_sock 2 77 false).tp ∧
      (mptcp_ccc_set_state (ex_sock 2 77 false) 4).mpcb = (ex_sock 2 77 false).mpcb ∧
      (mptcp_ccc_set_state (ex_sock 2 77 false) 4).mpc = (ex_sock 2 77 false).mpc ∧
      (mptcp_ccc_set_state (ex_sock 2 77 false) 4).recalc_calls
        = (ex_sock 2 77 false).recalc_calls) ∧
    ((ex_sock 2 77 false).mpc = false →
      mptcp_ccc_set_state (ex_sock 2 77 false) 4 = ex_sock 2 77 false)) ∧
    mptcp_ccc_set_state (ex_sock 2 77 false) 4 = ex_sock 2 77 true ∧
    mptcp_ccc_set_state ex_plain 4 = ex_plain :=
  ⟨set_state_forces_update (ex_sock 2 77 false) 4, by decide, by decide⟩

/-- C15: `mptcp_ccc_cwnd_event` with the event `CA_EVENT_LOSS` is the
recomputation on the same input, with no further condition; with any other
event it leaves the connection and subflow state as it was. -/
theorem cwnd_event_loss (sk : sock) (event : tcp_ca_event) :
    mptcp_ccc_cwnd_event sk tcp_ca_event.CA_EVENT_LOSS = mptcp_ccc_recalc_alpha sk ∧
    (event ≠ tcp_ca_event.CA_EVENT_LOSS → mptcp_ccc_cwnd_event sk event = some sk) := by
  unfold mptcp_ccc_cwnd_event
  constructor
  · rw [if_pos rfl]
  · intro h
    rw [if_neg h]

theorem cwnd_event_loss_witness :
    (mptcp_ccc_cwnd_event (ex_sock 2 77 true) tcp_ca_event.CA_EVENT_LOSS
        = mptcp_ccc_recalc_alpha (ex_sock 2 77 true) ∧
      (tcp_ca_event.CA_EVENT_COMPLETE_CWR ≠ tcp_ca_event.CA_EVENT_LOSS →
        mptcp_ccc_cwnd_event (ex_sock 2 77 true) tcp_ca_event.CA_EVENT_COMPLETE_CWR
          = some (ex_sock 2 77 true))) ∧
    (mptcp_ccc_cwnd_event (ex_sock 2 77 true) tcp_ca_event.CA_EVENT_LOSS).map
      (fun s => (s.meta_ca.alpha, s.meta_ca.forced_update)) = some (182, true) ∧
    mptcp_ccc_cwnd_event (ex_sock 1 77 true) tcp_ca_event.CA_EVENT_TX_START
      = some (ex_sock 1 77 true) :=
  ⟨cwnd_event_loss (ex_sock 2 77 true) tcp_ca_event.CA_EVENT_COMPLETE_CWR,
   by decide, by decide⟩

/-! ## The threshold transition -/

/-- With a control block attached, the alpha the recomputation stores depends
only on the control block and the subflow fields. -/
theorem recalc_alpha_congr (x y x' : sock) (mpcb : mptcp_cb)
    (hx : x.mpcb = some mpcb) (hy : y.mpcb = some mpcb) (ht : y.tp = x.tp)
    (h : mptcp_ccc_recalc_alpha x = some x') :
    ∃ y', mptcp_ccc_recalc_alpha y = some y' ∧ y'.meta_ca.alpha = x'.meta_ca.alpha := by
  rw [recalc_eq] at h ⊢
  simp only [hx, Option.map_eq_some'] at h
  obtain ⟨a, ha, rfl⟩ := h
  simp only [hy, ht, ha]
  exact ⟨_, rfl, rfl⟩

theorem snd_cwnd_target_mpcb (sk : sock) (w : Nat) (h : snd_cwnd_target sk = some w) :
    ∃ mpcb, sk.mpcb = some mpcb := by
  cases hm : sk.mpcb with
  | none => simp [snd_cwnd_target, hm] at h
  | some mpcb => exact ⟨mpcb, rfl⟩

/-- When the window step increments `cwnd`, the alpha it leaves is the one the
recomputation stores on the state holding the incremented window. -/
theorem cong_avoid_ai_alpha (sk sk' : sock) (w : Nat)
    (hge : w ≤ sk.tp.snd_cwnd_cnt) (hcl : sk.tp.snd_cwnd < sk.tp.snd_cwnd_clamp)
    (h : cong_avoid_ai sk w = some sk') :
    ∃ sk2, mptcp_ccc_recalc_alpha
        { sk with tp := { sk.tp with snd_cwnd := (sk.tp.snd_cwnd + 1) % 2 ^ 32 } } = some sk2 ∧
      sk'.meta_ca = sk2.meta_ca := by
  unfold cong_avoid_ai at h
  rw [if_pos hge, if_pos hcl] at h
  generalize mptcp_ccc_recalc_alpha _ = r at h
  cases r with
  | none => simp at h
  | some sk2 =>
    simp only [Option.some.injEq] at h
    subst h
    exact ⟨sk2, rfl, rfl⟩

/-- C16: the threshold transition in congestion avoidance (multipath,
window-limited, `cwnd > ssthresh`, fields in range).  When the growth counter
has reached the target, the counter is 0 after the call; if moreover
`cwnd < cwnd_clamp`, then `cwnd` has grown by one and the alpha left behind is
the one the recomputation stores on the state that already holds the
incremented `cwnd`; if `cwnd = cwnd_clamp`, `cwnd` is unchanged.  Hence every
call that changes `cwnd` in congestion avoidance ends with the counter at 0. -/
theorem cong_avoid_threshold (sk : sock) (ack acked : Nat)
    (hm : sk.mpc = true) (hl : sk.tp.tcp_is_cwnd_limited = true)
    (hca : sk.tp.snd_ssthresh < sk.tp.snd_cwnd) (hwf : sk.tp.wf) :
    ∀ sk', mptcp_ccc_cong_avoid sk ack acked = some sk' →
      (∃ sk1 w, cong_avoid_forced sk = some sk1 ∧ snd_cwnd_target sk1 = some w ∧
        (w ≤ sk.tp.snd_cwnd_cnt →
          sk'.tp.snd_cwnd_cnt = 0 ∧
          (sk.tp.snd_cwnd < sk.tp.snd_cwnd_clamp →
            sk'.tp.snd_cwnd = sk.tp.snd_cwnd + 1 ∧
            ∃ sk2, mptcp_ccc_recalc_alpha sk.cwnd_incremented = some sk2 ∧
              sk'.meta_ca.alpha = sk2.meta_ca.alpha) ∧
          (sk.tp.snd_cwnd = sk.tp.snd_cwnd_clamp → sk'.tp.snd_cwnd = sk.tp.snd_cwnd))) ∧
      (sk'.tp.snd_cwnd ≠ sk.tp.snd_cwnd → sk'.tp.snd_cwnd_cnt = 0) := by
  intro sk' h
  rw [cong_avoid_ca_eq sk ack acked hm hl hca] at h
  cases hf : cong_avoid_forced sk with
  | none => simp [hf] at h
  | some sk1 =>
    cases hw : snd_cwnd_target sk1 with
    | none => simp [hf, hw] at h
    | some w =>
      simp only [hf, hw, Option.some_bind] at h
      obtain ⟨ht, _, hmp⟩ := cong_avoid_forced_frame sk sk1 hf
      have hwf1 : sk1.tp.wf := by rw [ht]; exact hwf
      have hlt := snd_cwnd_target_lt sk1 w hw hwf1.1
      obtain ⟨hA, hB⟩ := cong_avoid_ai_spec sk1 sk' w hwf1 hlt h
      rw [ht] at hA hB
      obtain ⟨mpcb, hmpcb⟩ := snd_cwnd_target_mpcb sk1 w hw
      refine ⟨⟨sk1, w, rfl, hw, ?_⟩, ?_⟩
      · intro hge
        obtain ⟨h0, hcw⟩ := hA hge
        refine ⟨h0, ?_, ?_⟩
        · intro hcl
          rw [if_pos hcl] at hcw
          refine ⟨hcw, ?_⟩
          obtain ⟨sk2, hr, hmeta⟩ := cong_avoid_ai_alpha sk1 sk' w (by rw [ht]; exact hge)
            (by rw [ht]; exact hcl) h
          have hmod : (sk.tp.snd_cwnd + 1) % 2 ^ 32 = sk.tp.snd_cwnd + 1 := by
            obtain ⟨-, -, -, h4, -⟩ := hwf
            exact Nat.mod_eq_of_lt (by omega)
          have htp : sk.cwnd_incremented.tp
              = ({ sk1 with tp := { sk1.tp with
                  snd_cwnd := (sk1.tp.snd_cwnd + 1) % 2 ^ 32 } } : sock).tp := by
            show _ = { sk1.tp with snd_cwnd := (sk1.tp.snd_cwnd + 1) % 2 ^ 32 }
            rw [ht, hmod]
            rfl
          have hmy : sk.cwnd_incremented.mpcb = some mpcb := by
            show sk.mpcb = some mpcb
            rw [← hmp]
            exact hmpcb
          obtain ⟨y', hy, hya⟩ := recalc_alpha_congr
            ({ sk1 with tp := { sk1.tp with
                snd_cwnd := (sk1.tp.snd_cwnd + 1) % 2 ^ 32 } } : sock)
            sk.cwnd_incremented sk2 mpcb hmpcb hmy htp hr
          exact ⟨y', hy, by rw [hmeta, hya]⟩
        · intro heq
          rw [if_neg (by omega)] at hcw
          exact hcw
      · intro hne
        by_cases hge : w ≤ sk.tp.snd_cwnd_cnt
        · exact (hA hge).1
        · exact absurd (hB (by omega)).2 hne

theorem cong_avoid_threshold_witness :
    (∀ sk', mptcp_ccc_cong_avoid (ex_cong_avoid 2 1 30 true true) 0 1 = some sk' →
      (∃ sk1 w, cong_avoid_forced (ex_cong_avoid 2 1 30 true true) = some sk1 ∧
        snd_cwnd_target sk1 = some w ∧
        (w ≤ (ex_cong_avoid 2 1 30 true true).tp.snd_cwnd_cnt →
          sk'.tp.snd_cwnd_cnt = 0 ∧
          ((ex_cong_avoid 2 1 30 true true).tp.snd_cwnd
              < (ex_cong_avoid 2 1 30 true true).tp.snd_cwnd_clamp →
            sk'.tp.snd_cwnd = (ex_cong_avoid 2 1 30 true true).tp.snd_cwnd + 1 ∧
            ∃ sk2, mptcp_ccc_recalc_alpha (ex_cong_avoid 2 1 30 true true).cwnd_incremented
                = some sk2 ∧
              sk'.meta_ca.alpha = sk2.meta_ca.alpha) ∧
          ((ex_cong_avoid 2 1 30 true true).tp.snd_cwnd
              = (ex_cong_avoid 2 1 30 true true).tp.snd_cwnd_clamp →
            sk'.tp.snd_cwnd = (ex_cong_avoid 2 1 30 true true).tp.snd_cwnd))) ∧
      (sk'.tp.snd_cwnd ≠ (ex_cong_avoid 2 1 30 true true).tp.snd_cwnd →
        sk'.tp.snd_cwnd_cnt = 0)) ∧
    (cong_avoid_forced (ex_cong_avoid 2 1 30 true true)).bind snd_cwnd_target = some 22 ∧
    (mptcp_ccc_cong_avoid (ex_cong_avoid 2 1 30 true true) 0 1).map
      (fun s => (s.tp.snd_cwnd, s.tp.snd_cwnd_cnt, s.meta_ca.alpha)) = some (11, 0, 176) ∧
    (mptcp_ccc_recalc_alpha (ex_cong_avoid 2 1 30 true true).cwnd_incremented).map
      (fun s => s.meta_ca.alpha) = some 176 ∧
    (mptcp_ccc_cong_avoid
        { ex_near_clamp with
          tp := { ex_near_clamp.tp with snd_cwnd := 11, snd_cwnd_cnt := 5000 } } 0 1).map
      (fun s => (s.tp.snd_cwnd, s.tp.snd_cwnd_cnt, s.tp.snd_cwnd_clamp)) = some (11, 0, 11) :=
  ⟨cong_avoid_threshold (ex_cong_avoid 2 1 30 true true) 0 1 rfl rfl (by decide) (by decide),
   by decide, by decide, by decide, by decide⟩

/-! ## Best-path selection and the candidate -/

/-- The first loop selects the last send-eligible subflow whose candidate is
maximal and at least the incoming maximum; when every eligible candidate is
below the incoming maximum it keeps the incoming selection. -/
theorem find_max_numerator_last (l : List tcp_sock) (acc : alpha_scan) :
    (∃ pre t post, l = pre ++ t :: post ∧ mptcp_ccc_sk_can_send t = true ∧
        (find_max_numerator l acc).best_cwnd = t.snd_cwnd ∧
        (find_max_numerator l acc).best_rtt = t.srtt_us ∧
        acc.max_numerator ≤ numerator_candidate t ∧
        (∀ u ∈ pre, mptcp_ccc_sk_can_send u = true →
          numerator_candidate u ≤ numerator_candidate t) ∧
        (∀ u ∈ post, mptcp_ccc_sk_can_send u = true →
          numerator_candidate u < numerator_candidate t)) ∨
    ((∀ u ∈ l, mptcp_ccc_sk_can_send u = true → numerator_candidate u < acc.max_numerator) ∧
        (find_max_numerator l acc).best_cwnd = acc.best_cwnd ∧
        (find_max_numerator l acc).best_rtt = acc.best_rtt) := by
  induction l generalizing acc with
  | nil => right; simp [find_max_numerator]
  | cons x rest ih =>
    unfold find_max_numerator
    cases hx : mptcp_ccc_sk_can_send x with
    | false =>
      simp only [Bool.not_false, if_true]
      rcases ih acc with ⟨pre, t, post, hl, ht, h1, h2, h3, h4, h5⟩ | ⟨h1, h2⟩
      · refine Or.inl ⟨x :: pre, t, post, by rw [hl]; rfl, ht, h1, h2, h3, ?_, h5⟩
        intro u hu hs
        rcases List.mem_cons.mp hu with rfl | hu
        · rw [hx] at hs; exact absurd hs (by decide)
        · exact h4 u hu hs
      · refine Or.inr ⟨?_, h2⟩
        intro u hu hs
        rcases List.mem_cons.mp hu with rfl | hu
        · rw [hx] at hs; exact absurd hs (by decide)
        · exact h1 u hu hs
    | true =>
      simp only [Bool.not_true, Bool.false_eq_true, if_false]
      by_cases hge : numerator_candidate x ≥ acc.max_numerator
      · simp only [hge, if_true]
        rcases ih { max_numerator := numerator_candidate x, best_cwnd := x.snd_cwnd,
                    best_rtt := x.srtt_us, can_send := acc.can_send + 1 }
          with ⟨pre, t, post, hl, ht, h1, h2, h3, h4, h5⟩ | ⟨h1, h2, h3⟩
        · refine Or.inl ⟨x :: pre, t, post, by rw [hl]; rfl, ht, h1, h2,
            le_trans hge h3, ?_, h5⟩
          intro u hu hs
          rcases List.mem_cons.mp hu with rfl | hu
          · exact h3
          · exact h4 u hu hs
        · exact Or.inl ⟨[], x, rest, rfl, hx, h2, h3, hge,
            fun u hu _ => absurd hu (List.not_mem_nil u), h1⟩
      · simp only [hge, if_false]
        rcases ih { acc with can_send := acc.can_send + 1 }
          with ⟨pre, t, post, hl, ht, h1, h2, h3, h4, h5⟩ | ⟨h1, h2⟩
        · refine Or.inl ⟨x :: pre, t, post, by rw [hl]; rfl, ht, h1, h2, h3, ?_, h5⟩
          intro u hu hs
          rcases List.mem_cons.mp hu with rfl | hu
          · have h3' : acc.max_numerator ≤ numerator_candidate t := h3
            omega
          · exact h4 u hu hs
        · refine Or.inr ⟨?_, h2⟩
          intro u hu hs
          rcases List.mem_cons.mp hu with rfl | hu
          · omega
          · exact h1 u hu hs

theorem srtt_sq_lt (s : Nat) (hs : s < 2 ^ 32) : s * s < 2 ^ 64 := by
  calc s * s ≤ s * 2 ^ 32 := Nat.mul_le_mul_left s (le_of_lt hs)
    _ < 2 ^ 32 * 2 ^ 32 := Nat.mul_lt_mul_of_pos_right hs (by norm_num)
    _ = 2 ^ 64 := by norm_num

theorem numerator_candidate_eq (t : tcp_sock) (hc : t.snd_cwnd < 2 ^ 32) :
    numerator_candidate t = spec_candidate t := by
  unfold numerator_candidate spec_candidate
  rw [mptcp_ccc_scale_num _ hc, sq]

/-- C18: the candidate cannot overflow.  For a `u32` window and a non-zero
`u32` smoothed RTT both `cwnd * 2^32` and `srtt * srtt` are below `2^64` (and
the latter is not zero), so the value computed in 64-bit unsigned arithmetic,
without a fault, is the exact `floor(cwnd * 2^32 / srtt^2)`. -/
theorem numerator_candidate_exact (t : tcp_sock)
    (hc : t.snd_cwnd < 2 ^ 32) (hs : t.srtt_us < 2 ^ 32) (h0 : t.srtt_us ≠ 0) :
    t.snd_cwnd * 2 ^ 32 < 2 ^ 64 ∧ t.srtt_us * t.srtt_us < 2 ^ 64 ∧
    mptcp_ccc_scale t.snd_cwnd alpha_scale_num = t.snd_cwnd * 2 ^ 32 ∧
    div64_u64 (mptcp_ccc_scale t.snd_cwnd alpha_scale_num) (t.srtt_us * t.srtt_us % 2 ^ 64)
      = some (spec_candidate t) ∧
    numerator_candidate t = spec_candidate t := by
  have h1 : t.snd_cwnd * 2 ^ 32 < 2 ^ 64 := by norm_num at hc ⊢; omega
  have h2 := srtt_sq_lt t.srtt_us hs
  have h3 : t.srtt_us * t.srtt_us ≠ 0 := Nat.mul_ne_zero h0 h0
  refine ⟨h1, h2, mptcp_ccc_scale_num _ hc, ?_, numerator_candidate_eq t hc⟩
  unfold div64_u64
  rw [Nat.mod_eq_of_lt h2, if_neg h3, mptcp_ccc_scale_num _ hc, spec_candidate, sq]

theorem numerator_candidate_exact_witness :
    ex_tp2.snd_cwnd * 2 ^ 32 < 2 ^ 64 ∧ ex_tp2.srtt_us * ex_tp2.srtt_us < 2 ^ 64 ∧
    mptcp_ccc_scale ex_tp2.snd_cwnd alpha_scale_num = ex_tp2.snd_cwnd * 2 ^ 32 ∧
    div64_u64 (mptcp_ccc_scale ex_tp2.snd_cwnd alpha_scale_num)
        (ex_tp2.srtt_us * ex_tp2.srtt_us % 2 ^ 64)
      = some (spec_candidate ex_tp2) ∧
    numerator_candidate ex_tp2 = spec_candidate ex_tp2 :=
  numerator_candidate_exact ex_tp2 (by decide) (by decide) (by decide)

/-- C17: best-path selection.  For a list with at least one send-eligible
subflow (fields in range), the selected `best_cwnd` and `best_rtt` are those of
a send-eligible subflow `t` whose candidate `floor(cwnd * 2^32 / srtt^2)` is the
maximum over all send-eligible subflows and strictly exceeds the candidate of
every send-eligible subflow after it: the last one in iteration order with the
maximal candidate.  A subflow that is not send-eligible is never selected. -/
theorem best_path_is_last_max (l : List tcp_sock)
    (he : ∃ t ∈ l, mptcp_ccc_sk_can_send t = true) (hwf : ∀ t ∈ l, t.wf) :
    ∃ pre t post, l = pre ++ t :: post ∧ mptcp_ccc_sk_can_send t = true ∧
      best_cwnd l = t.snd_cwnd ∧ best_rtt l = t.srtt_us ∧
      (∀ u ∈ l, mptcp_ccc_sk_can_send u = true → spec_candidate u ≤ spec_candidate t) ∧
      (∀ u ∈ post, mptcp_ccc_sk_can_send u = true → spec_candidate u < spec_candidate t) := by
  have hcand : ∀ u ∈ l, numerator_candidate u = spec_candidate u :=
    fun u hu => numerator_candidate_eq u (hwf u hu).1
  rcases find_max_numerator_last l alpha_scan.init with
    ⟨pre, t, post, hl, ht, h1, h2, _, h4, h5⟩ | ⟨h1, _⟩
  · have hmem : ∀ u, u ∈ pre ∨ u = t ∨ u ∈ post → u ∈ l := by
      intro u hu
      rw [hl]
      simp only [List.mem_append, List.mem_cons]
      tauto
    refine ⟨pre, t, post, hl, ht, h1, h2, ?_, ?_⟩
    · intro u hu hs
      have hu' : u ∈ pre ∨ u = t ∨ u ∈ post := by
        rw [hl] at hu
        simpa [List.mem_append, List.mem_cons] using hu
      rw [← hcand u hu, ← hcand t (hmem t (Or.inr (Or.inl rfl)))]
      rcases hu' with hp | rfl | hp
      · exact h4 u hp hs
      · exact le_refl _
      · exact le_of_lt (h5 u hp hs)
    · intro u hu hs
      rw [← hcand u (hmem u (Or.inr (Or.inr hu))), ← hcand t (hmem t (Or.inr (Or.inl rfl)))]
      exact h5 u hu hs
  · obtain ⟨t, ht, hs⟩ := he
    have := h1 t ht hs
    simp [alpha_scan.init] at this

theorem best_path_is_last_max_witness :
    (∃ pre t post, ex_tie = pre ++ t :: post ∧ mptcp_ccc_sk_can_send t = true ∧
      best_cwnd ex_tie = t.snd_cwnd ∧ best_rtt ex_tie = t.srtt_us ∧
      (∀ u ∈ ex_tie, mptcp_ccc_sk_can_send u = true → spec_candidate u ≤ spec_candidate t) ∧
      (∀ u ∈ post, mptcp_ccc_sk_can_send u = true → spec_candidate u < spec_candidate t)) ∧
    ex_tie.map spec_candidate = [4294967, 21474836, 4294967, 1073741] ∧
    ex_tie.map mptcp_ccc_sk_can_send = [true, false, true, true] ∧
    best_cwnd ex_tie = 40 ∧ best_rtt ex_tie = 200 :=
  ⟨best_path_is_last_max ex_tie ⟨ex_tp1, by decide, by decide⟩ (by decide),
   by decide, by decide, by decide, by decide⟩

/-! ## Bounds under the normal precondition -/

/-- Consequences of the normal precondition (every send-eligible subflow has
`1 <= cwnd < 2^22` and `srtt < 2^31`): the best path has a window of at least
one packet and an RTT below `2^31`, and no product of the second loop wraps. -/
theorem normal_precondition (l : List tcp_sock)
    (he : ∃ t ∈ l, mptcp_ccc_sk_can_send t = true)
    (hcw : ∀ t ∈ l, mptcp_ccc_sk_can_send t = true →
      1 ≤ t.snd_cwnd ∧ t.snd_cwnd < 2 ^ 22 ∧ t.srtt_us < 2 ^ 31) :
    1 ≤ best_cwnd l ∧ best_rtt l < 2 ^ 31 ∧
    (∀ t ∈ l, mptcp_ccc_sk_can_send t = true → t.snd_cwnd * 2 ^ 10 * best_rtt l < 2 ^ 64) := by
  obtain ⟨b, hb, hbs, hbc, hbr⟩ := best_path_mem l he
  obtain ⟨h1, _, h3⟩ := hcw b hb hbs
  have hr : best_rtt l < 2 ^ 31 := by rw [hbr]; exact h3
  refine ⟨by rw [hbc]; exact h1, hr, ?_⟩
  intro t ht hs
  obtain ⟨_, h2, _⟩ := hcw t ht hs
  have ha : t.snd_cwnd * 2 ^ 10 ≤ 2 ^ 32 := by norm_num at h2 ⊢; omega
  calc t.snd_cwnd * 2 ^ 10 * best_rtt l ≤ 2 ^ 32 * 2 ^ 31 := Nat.mul_le_mul ha (le_of_lt hr)
    _ < 2 ^ 64 := by norm_num

/-- The exact quotient is at most `floor(2^12 / best_cwnd)` once the sum is at
least `best_cwnd * 2^10`. -/
theorem quotient_le (bc S : Nat) (hbc : 1 ≤ bc) (hS : bc * 2 ^ 10 ≤ S) :
    bc * 2 ^ 32 / S ^ 2 ≤ 2 ^ 12 / bc := by
  have h1 : bc * (bc * 2 ^ 20) ≤ S ^ 2 := by
    calc bc * (bc * 2 ^ 20) = (bc * 2 ^ 10) ^ 2 := by ring
      _ ≤ S ^ 2 := Nat.pow_le_pow_left hS 2
  have hpos : 0 < bc * (bc * 2 ^ 20) := by positivity
  calc bc * 2 ^ 32 / S ^ 2 ≤ bc * 2 ^ 32 / (bc * (bc * 2 ^ 20)) :=
        Nat.div_le_div_left h1 hpos
    _ = 2 ^ 32 / (bc * 2 ^ 20) := Nat.mul_div_mul_left _ _ (by omega)
    _ = 2 ^ 12 * 2 ^ 20 / (bc * 2 ^ 20) := by norm_num
    _ = 2 ^ 12 / bc := Nat.mul_div_mul_right _ _ (by norm_num)

/-- C19: upper bound on the coefficient.  With `cnt_established > 1`, at least
one send-eligible subflow, every send-eligible subflow having `1 <= cwnd < 2^22`
and `srtt < 2^31`, and the exact denominator sum below `2^32`, the
recomputation completes and stores an alpha that is at most
`max(1, floor(2^12 / best_cwnd))`, hence at most 4096; it fits the 32-bit
divisor of `mptcp_ccc_cong_avoid` unchanged, and whenever it was not coerced
(the quotient is at least 1) `floor(2^12 / alpha)` is at least `best_cwnd`. -/
theorem recalc_alpha_upper_bound (sk : sock) (mpcb : mptcp_cb)
    (hm : sk.mpcb = some mpcb) (hc : 1 < mpcb.cnt_established)
    (he : ∃ t ∈ mptcp_for_each_sk mpcb sk.tp, mptcp_ccc_sk_can_send t = true)
    (hwf : ∀ t ∈ mptcp_for_each_sk mpcb sk.tp, t.wf)
    (hcw : ∀ t ∈ mptcp_for_each_sk mpcb sk.tp, mptcp_ccc_sk_can_send t = true →
      1 ≤ t.snd_cwnd ∧ t.snd_cwnd < 2 ^ 22 ∧ t.srtt_us < 2 ^ 31)
    (hsum : spec_sum_denominator (best_rtt (mptcp_for_each_sk mpcb sk.tp))
      (mptcp_for_each_sk mpcb sk.tp) < 2 ^ 32) :
    ∃ sk', mptcp_ccc_recalc_alpha sk = some sk' ∧
      sk'.meta_ca.alpha ≤ max 1 (2 ^ 12 / best_cwnd (mptcp_for_each_sk mpcb sk.tp)) ∧
      sk'.meta_ca.alpha ≤ 4096 ∧ sk'.meta_ca.alpha < 2 ^ 32 ∧
      alpha_divisor sk'.meta_ca.alpha = sk'.meta_ca.alpha ∧
      (1 ≤ best_cwnd (mptcp_for_each_sk mpcb sk.tp) * 2 ^ 32 /
            spec_sum_denominator (best_rtt (mptcp_for_each_sk mpcb sk.tp))
              (mptcp_for_each_sk mpcb sk.tp) ^ 2 →
        best_cwnd (mptcp_for_each_sk mpcb sk.tp) ≤ 2 ^ 12 / sk'.meta_ca.alpha) := by
  obtain ⟨hbc, hbr, hprod⟩ := normal_precondition _ he hcw
  have hge := spec_sum_denominator_ge _ he
  have hl := lia_alpha_formula mpcb sk.tp hc he hwf hbr hprod hsum
  have hz : spec_sum_denominator (best_rtt (mptcp_for_each_sk mpcb sk.tp))
      (mptcp_for_each_sk mpcb sk.tp) ≠ 0 := by omega
  rw [if_neg hz] at hl
  have hr := recalc_eq sk
  simp only [hm, hl, Option.map_some'] at hr
  have hq := quotient_le _ _ hbc hge
  have h4096 : 2 ^ 12 / best_cwnd (mptcp_for_each_sk mpcb sk.tp) ≤ 4096 :=
    Nat.div_le_self _ _
  have ha : (mptcp_set_alpha sk.entered (spec_alpha (mptcp_for_each_sk mpcb sk.tp))).meta_ca.alpha
      = max 1 (best_cwnd (mptcp_for_each_sk mpcb sk.tp) * 2 ^ 32 /
          spec_sum_denominator (best_rtt (mptcp_for_each_sk mpcb sk.tp))
            (mptcp_for_each_sk mpcb sk.tp) ^ 2) := rfl
  have hle : max 1 (best_cwnd (mptcp_for_each_sk mpcb sk.tp) * 2 ^ 32 /
      spec_sum_denominator (best_rtt (mptcp_for_each_sk mpcb sk.tp))
        (mptcp_for_each_sk mpcb sk.tp) ^ 2)
      ≤ max 1 (2 ^ 12 / best_cwnd (mptcp_for_each_sk mpcb sk.tp)) :=
    max_le_max (le_refl 1) hq
  have hle2 : max 1 (2 ^ 12 / best_cwnd (mptcp_for_each_sk mpcb sk.tp)) ≤ 4096 :=
    max_le (by norm_num) h4096
  refine ⟨_, hr, ?_, ?_, ?_, ?_, ?_⟩
  · rw [ha]; exact hle
  · rw [ha]; exact le_trans hle hle2
  · rw [ha]; exact lt_of_le_of_lt (le_trans hle hle2) (by norm_num)
  · rw [ha]
    have hpos : 1 ≤ max 1 (best_cwnd (mptcp_for_each_sk mpcb sk.tp) * 2 ^ 32 /
        spec_sum_denominator (best_rtt (mptcp_for_each_sk mpcb sk.tp))
          (mptcp_for_each_sk mpcb sk.tp) ^ 2) := le_max_left _ _
    have hlt := lt_of_le_of_lt (le_trans hle hle2) (show 4096 < 2 ^ 32 by norm_num)
    rw [(alpha_divisor_of_lt _ hlt).1, if_neg (by omega)]
  · intro h1
    rw [ha, max_eq_right h1]
    rw [Nat.le_div_iff_mul_le (by omega)]
    have := (Nat.le_div_iff_mul_le hbc).mp hq
    rw [Nat.mul_comm]
    exact this

theorem recalc_alpha_upper_bound_witness :
    (∃ sk', mptcp_ccc_recalc_alpha (ex_sock 2 0 false) = some sk' ∧
      sk'.meta_ca.alpha
        ≤ max 1 (2 ^ 12 / best_cwnd (mptcp_for_each_sk ⟨2, [], [ex_tp2]⟩ (ex_sock 2 0 false).tp)) ∧
      sk'.meta_ca.alpha ≤ 4096 ∧ sk'.meta_ca.alpha < 2 ^ 32 ∧
      alpha_divisor sk'.meta_ca.alpha = sk'.meta_ca.alpha ∧
      (1 ≤ best_cwnd (mptcp_for_each_sk ⟨2, [], [ex_tp2]⟩ (ex_sock 2 0 false).tp) * 2 ^ 32 /
            spec_sum_denominator
              (best_rtt (mptcp_for_each_sk ⟨2, [], [ex_tp2]⟩ (ex_sock 2 0 false).tp))
              (mptcp_for_each_sk ⟨2, [], [ex_tp2]⟩ (ex_sock 2 0 false).tp) ^ 2 →
        best_cwnd (mptcp_for_each_sk ⟨2, [], [ex_tp2]⟩ (ex_sock 2 0 false).tp)
          ≤ 2 ^ 12 / sk'.meta_ca.alpha)) ∧
    (mptcp_ccc_recalc_alpha (ex_sock 2 0 false)).map (fun s => s.meta_ca.alpha) = some 182 ∧
    max 1 (2 ^ 12 / best_cwnd [ex_tp1, ex_tp2]) = 409 ∧ 2 ^ 12 / 182 = 22 :=
  ⟨recalc_alpha_upper_bound (ex_sock 2 0 false) ⟨2, [], [ex_tp2]⟩ rfl (by decide)
      ⟨ex_tp1, by decide, by decide⟩ (by decide) (by decide) (by decide),
   by decide, by decide, by decide⟩

/-- C20: no division by zero under the normal precondition.  With
`cnt_established > 1`, at least one send-eligible subflow, every send-eligible
subflow having `1 <= cwnd < 2^22` and `srtt < 2^31`, and the exact denominator
sum below `2^32`: every divisor of the two loops is non-zero (`srtt_i > 0` and
`srtt_i^2 > 0`, also as 32-bit and 64-bit values); the best path, a
send-eligible member of the list, contributes exactly `best_cwnd * 2^10` to the
sum; the squared denominator is at least `(best_cwnd * 2^10)^2 >= 2^20`, so the
last division has a non-zero divisor and the recomputation completes. -/
theorem recalc_alpha_divisors_nonzero (sk : sock) (mpcb : mptcp_cb)
    (hm : sk.mpcb = some mpcb) (hc : 1 < mpcb.cnt_established)
    (he : ∃ t ∈ mptcp_for_each_sk mpcb sk.tp, mptcp_ccc_sk_can_send t = true)
    (hwf : ∀ t ∈ mptcp_for_each_sk mpcb sk.tp, t.wf)
    (hcw : ∀ t ∈ mptcp_for_each_sk mpcb sk.tp, mptcp_ccc_sk_can_send t = true →
      1 ≤ t.snd_cwnd ∧ t.snd_cwnd < 2 ^ 22 ∧ t.srtt_us < 2 ^ 31)
    (hsum : spec_sum_denominator (best_rtt (mptcp_for_each_sk mpcb sk.tp))
      (mptcp_for_each_sk mpcb sk.tp) < 2 ^ 32) :
    (∀ t ∈ mptcp_for_each_sk mpcb sk.tp, mptcp_ccc_sk_can_send t = true →
      0 < t.srtt_us ∧ t.srtt_us % 2 ^ 32 ≠ 0 ∧
      0 < t.srtt_us * t.srtt_us ∧ t.srtt_us * t.srtt_us % 2 ^ 64 ≠ 0) ∧
    (∃ b ∈ mptcp_for_each_sk mpcb sk.tp, mptcp_ccc_sk_can_send b = true ∧
      b.snd_cwnd = best_cwnd (mptcp_for_each_sk mpcb sk.tp) ∧
      b.srtt_us = best_rtt (mptcp_for_each_sk mpcb sk.tp) ∧
      denominator_term (best_rtt (mptcp_for_each_sk mpcb sk.tp)) b
        = best_cwnd (mptcp_for_each_sk mpcb sk.tp) * 2 ^ 10) ∧
    2 ^ 20 ≤ (best_cwnd (mptcp_for_each_sk mpcb sk.tp) * 2 ^ 10) ^ 2 ∧
    (best_cwnd (mptcp_for_each_sk mpcb sk.tp) * 2 ^ 10) ^ 2
      ≤ squared_denominator (mptcp_for_each_sk mpcb sk.tp) ∧
    squared_denominator (mptcp_for_each_sk mpcb sk.tp) ≠ 0 ∧
    ∃ sk', mptcp_ccc_recalc_alpha sk = some sk' := by
  obtain ⟨hbc, hbr, hprod⟩ := normal_precondition _ he hcw
  have hge := spec_sum_denominator_ge _ he
  have hsq := squared_denominator_eq _ hwf hbr hprod hsum
  have h20 : 2 ^ 20 ≤ (best_cwnd (mptcp_for_each_sk mpcb sk.tp) * 2 ^ 10) ^ 2 := by
    calc 2 ^ 20 = (1 * 2 ^ 10) ^ 2 := by norm_num
      _ ≤ (best_cwnd (mptcp_for_each_sk mpcb sk.tp) * 2 ^ 10) ^ 2 :=
        Nat.pow_le_pow_left (Nat.mul_le_mul_right _ hbc) 2
  have hle : (best_cwnd (mptcp_for_each_sk mpcb sk.tp) * 2 ^ 10) ^ 2
      ≤ squared_denominator (mptcp_for_each_sk mpcb sk.tp) := by
    rw [hsq]
    exact Nat.pow_le_pow_left hge 2
  have hne : squared_denominator (mptcp_for_each_sk mpcb sk.tp) ≠ 0 := by
    have : 0 < 2 ^ 20 := by norm_num
    omega
  refine ⟨?_, ?_, h20, hle, hne, ?_⟩
  · intro t ht hs
    have h0 : t.srtt_us ≠ 0 := by
      simp [mptcp_ccc_sk_can_send] at hs
      exact hs.2
    have h32 : t.srtt_us < 2 ^ 32 := (hwf t ht).2.2.2.2
    have hpos : 0 < t.srtt_us := Nat.pos_of_ne_zero h0
    have hsqpos : 0 < t.srtt_us * t.srtt_us := Nat.mul_pos hpos hpos
    refine ⟨hpos, ?_, hsqpos, ?_⟩
    · rw [Nat.mod_eq_of_lt h32]; exact h0
    · rw [Nat.mod_eq_of_lt (srtt_sq_lt _ h32)]; omega
  · obtain ⟨b, hb, hbs, hbcw, hbrt⟩ := best_path_mem _ he
    refine ⟨b, hb, hbs, hbcw.symm, hbrt.symm, ?_⟩
    have h0 : b.srtt_us ≠ 0 := by
      simp [mptcp_ccc_sk_can_send] at hbs
      exact hbs.2
    rw [denominator_term_eq _ b (hwf b hb) hbr (hprod b hb hbs), hbrt, hbcw,
      Nat.mul_div_cancel _ (Nat.pos_of_ne_zero h0)]
  · have hiff := lia_alpha_eq_none_iff mpcb sk.tp hc he
    rw [recalc_eq]
    simp only [hm]
    cases hla : lia_alpha mpcb sk.tp with
    | none => exact absurd (hiff.mp hla) hne
    | some a => exact ⟨_, rfl⟩

theorem recalc_alpha_divisors_nonzero_witness :
    (∃ b ∈ mptcp_for_each_sk ⟨2, [], [ex_tp2]⟩ (ex_sock 2 0 false).tp,
      mptcp_ccc_sk_can_send b = true ∧
      b.snd_cwnd = best_cwnd (mptcp_for_each_sk ⟨2, [], [ex_tp2]⟩ (ex_sock 2 0 false).tp) ∧
      b.srtt_us = best_rtt (mptcp_for_each_sk ⟨2, [], [ex_tp2]⟩ (ex_sock 2 0 false).tp) ∧
      denominator_term (best_rtt (mptcp_for_each_sk ⟨2, [], [ex_tp2]⟩ (ex_sock 2 0 false).tp)) b
        = best_cwnd (mptcp_for_each_sk ⟨2, [], [ex_tp2]⟩ (ex_sock 2 0 false).tp) * 2 ^ 10) ∧
    (best_cwnd [ex_tp1, ex_tp2] * 2 ^ 10) ^ 2 = 104857600 ∧
    squared_denominator [ex_tp1, ex_tp2] = 235929600 ∧
    (mptcp_ccc_recalc_alpha (ex_sock 2 0 false)).isSome = true :=
  ⟨(recalc_alpha_divisors_nonzero (ex_sock 2 0 false) ⟨2, [], [ex_tp2]⟩ rfl (by decide)
      ⟨ex_tp1, by decide, by decide⟩ (by decide) (by decide) (by decide)).2.1,
   by decide, by decide, by decide⟩

end MptcpCoupled
